import Mathlib

/-!
Shallow embedding of the Excel-consolidator pipeline implemented in `app.py`
(class `ExcelProcessor` plus the module-level helper `to_float`).

Modelling conventions:
* Spreadsheet cell values are `Value`: absent/`None`, a number, or text.
  Python numbers (ints and floats) are modelled as exact rationals `ℚ`;
  float rounding noise is outside the model, so `round(x, 6)` becomes exact
  rounding of a rational to 6 decimal places (ties, which Python resolves by
  binary-float half-even rounding, differ only on the measure-zero grid of
  exact half-ulps that no statement here touches).
* `str()` of a number is rendered by `toString` on `ℚ` ("3" rather than
  Python's "3.0"); every predicate of the program that consumes such a
  rendering only tests emptiness / placeholder-ship / keyword containment,
  none of which distinguishes the two renderings.
* Character case mapping is ASCII (the Romanian keyword constants in the
  source are already lower-case, and all claims use ASCII data).
* Python's `float()` literal parser is modelled for finite decimal/scientific
  literals; the exotic forms (`inf`, `nan`, digit-group underscores) are
  outside the numeric domain `ℚ` of the model and parse to `none`.
-/

/-- A spreadsheet cell value as seen by the processor: Python `None`,
a number, or a piece of text. -/
inductive Value where
  | vnone : Value
  | num : ℚ → Value
  | str : String → Value
  deriving DecidableEq

/-- Python whitespace for `str.strip` / `\s` (ASCII whitespace plus the
non-breaking space, the only non-ASCII whitespace the source manipulates). -/
def pyIsSpace (c : Char) : Bool :=
  c = ' ' || c = '\t' || c = '\n' || c = '\r' || c = '\x0b' || c = '\x0c' ||
  c = ' '

/-- Python `str.strip()`: drop leading and trailing whitespace. -/
def pyStrip (s : String) : String :=
  ⟨((s.data.dropWhile pyIsSpace).reverse.dropWhile pyIsSpace).reverse⟩

/-- Python `str.lower()` (ASCII). -/
def pyLower (s : String) : String :=
  ⟨s.data.map Char.toLower⟩

/-- Python `str.upper()` (ASCII). -/
def pyUpper (s : String) : String :=
  ⟨s.data.map Char.toUpper⟩

/-- Python `needle in hay` substring test. -/
def strIn (needle hay : String) : Bool :=
  hay.data.tails.any (fun t => needle.data.isPrefixOf t)

/-- Python `hay.endswith(tail)`. -/
def strEndsWith (hay tail : String) : Bool :=
  tail.data.isSuffixOf hay.data

/-- Python `str()` of a cell value (`str(None) = "None"`; numeric rendering
per the `ℚ` modelling note above). -/
def valueStr : Value → String
  | .vnone => "None"
  | .num q => toString q
  | .str s => s

/-- Python truthiness of a cell value (`None`, `0`, `0.0` and `""` are
falsy). -/
def pyTruthy : Value → Bool
  | .vnone => false
  | .num q => q ≠ 0
  | .str s => s ≠ ""

/-- Python `value or ''` as applied to cell values in the source. -/
def orEmptyVal (v : Value) : Value :=
  if pyTruthy v then v else .str ""

/-- Digit list to natural number, most significant digit first. -/
def digitsVal : List Char → Nat :=
  List.foldl (fun n c => 10 * n + (c.toNat - 48)) 0

/-- Exponent digits: one or more digits consuming the whole remainder. -/
def parseExpDigits (cs : List Char) : Option Nat :=
  match cs.span Char.isDigit with
  | (ds, rest) => if ds.isEmpty || !rest.isEmpty then none else some (digitsVal ds)

/-- Signed exponent digits; the truth flag requests a negative exponent. -/
def parseExpSigned (m : ℚ) (neg : Bool) (cs : List Char) : Option ℚ :=
  (fun ds => if neg then m / 10 ^ ds else m * 10 ^ ds) <$> parseExpDigits cs

/-- Mantissa and trailing-input continuation of Python's float-literal
grammar: optional exponent part (`e`/`E`, optional sign, digits), which must
consume the rest. -/
def parseExpTail (m : ℚ) : List Char → Option ℚ
  | [] => some m
  | c :: cs =>
    if c = 'e' || c = 'E' then
      match cs with
      | [] => none
      | c2 :: cs2 =>
        if c2 = '+' then parseExpSigned m false cs2
        else if c2 = '-' then parseExpSigned m true cs2
        else parseExpSigned m false (c2 :: cs2)
    else none

/-- Fractional continuation: `rest2` follows the decimal point; `ip` is the
integer digit part. -/
def parseFraction (ip rest2 : List Char) : Option ℚ :=
  match rest2.span Char.isDigit with
  | (fp, rest3) =>
    if ip.isEmpty && fp.isEmpty then none
    else parseExpTail ((digitsVal ip : ℚ) + (digitsVal fp : ℚ) / 10 ^ fp.length) rest3

/-- Unsigned float-literal body: `digits [. digits] [exp]` with at least one
digit present around the decimal point. -/
def parseBody (cs : List Char) : Option ℚ :=
  match cs.span Char.isDigit with
  | (ip, rest) =>
    match rest with
    | [] => if ip.isEmpty then none else parseExpTail (digitsVal ip : ℚ) []
    | c :: rest2 =>
      if c = '.' then parseFraction ip rest2
      else if ip.isEmpty then none
      else parseExpTail (digitsVal ip : ℚ) (c :: rest2)

/-- Python `float(s)` on a whitespace-free string: optional sign then the
float-literal body. -/
def pyFloatParse (s : String) : Option ℚ :=
  match s.data with
  | [] => none
  | c :: cs =>
    if c = '+' then parseBody cs
    else if c = '-' then (fun q => -q) <$> parseBody cs
    else parseBody (c :: cs)

/-- The cleaning pipeline of `to_float`: `str(x).strip()`, replace the
non-breaking space by a plain space, then `re.sub(r"\s+", "", s)` removing
every whitespace character. -/
def cleanNum (s : String) : String :=
  ⟨(((pyStrip s).data.map (fun c => if c = '\u00A0' then ' ' else c)).filter
      (fun c => !pyIsSpace c))⟩

/-- The `re.search(r"\d+,\d+$", s)` test of `to_float`: the string ends in
one-or-more digits, a comma, one-or-more digits. -/
def euDecimalTail (s : String) : Bool :=
  match (s.data.reverse).span Char.isDigit with
  | (ds, rest) =>
    !ds.isEmpty &&
      (match rest with
       | ',' :: c :: _ => c.isDigit
       | _ => false)

/-- EU branch of `to_float`: `s.replace(".", "").replace(",", ".")`. -/
def euSwap (s : String) : String :=
  ⟨(s.data.filter (fun c => c ≠ '.')).map (fun c => if c = ',' then '.' else c)⟩

/-- US branch of `to_float`: `s.replace(",", "")`. -/
def dropCommas (s : String) : String :=
  ⟨s.data.filter (fun c => c ≠ ',')⟩

/-- `to_float` from `app.py`: parse numbers from EU and US formats, `none`
on failure; numeric values pass through. -/
def to_float : Value → Option ℚ
  | .vnone => none
  | .num q => some q
  | .str s =>
    if s = "" then none
    else
      if euDecimalTail (cleanNum s) then pyFloatParse (euSwap (cleanNum s))
      else pyFloatParse (dropCommas (cleanNum s))

/-- The canonical column names produced by `_map_header` (the Romanian
header strings of `common_headers`, as an enumeration). -/
inductive HeaderField where
  | nrCrt : HeaderField
  | descriere : HeaderField
  | denumire : HeaderField
  | codArticol : HeaderField
  | furnizor : HeaderField
  | cantitate : HeaderField
  | puRon : HeaderField
  | pretTotalRon : HeaderField
  | puTaxaRon : HeaderField
  | pretTotalTaxaRon : HeaderField
  deriving DecidableEq

/-- Header-text preprocessing of `_map_header`:
`header_text.lower().strip().replace('\n', ' ')`. -/
def headerKey (s : String) : String :=
  ⟨(pyStrip (pyLower s)).data.map (fun c => if c = '\n' then ' ' else c)⟩

/-- `_map_header` from `app.py`: map one free-text header to at most one
canonical field, testing the keyword groups in the source's order. -/
def map_header (headerText : String) : Option HeaderField :=
  let h := headerKey headerText
  if strIn "nr. crt" h || strIn "nr crt" h || strIn "numar crt" h || strIn "nr.crt" h then
    some .nrCrt
  else if strIn "descriere" h || strIn "description" h then
    some .descriere
  else if strIn "denumire" h || strIn "denomination" h || strIn "nume" h then
    some .denumire
  else if strIn "cod articol" h || strIn "cod art" h || strIn "article code" h ||
      strIn "cod produs" h || strIn "code" h then
    some .codArticol
  else if strIn "furnizor" h || strIn "supplier" h || strIn "provider" h then
    some .furnizor
  else if strIn "cantitate" h || strIn "qty" h || strIn "quantity" h || strIn "cant" h then
    some .cantitate
  else if (strIn "p.u." h || strIn "pret unitar" h || strIn "unit price" h) &&
      !strIn "taxa" h && !strIn "verde" h then
    some .puRon
  else if (strIn "pret total" h || strIn "total price" h) &&
      !strIn "taxa" h && !strIn "verde" h then
    some .pretTotalRon
  else if (strIn "p.u." h || strIn "pret unitar" h) && (strIn "taxa" h || strIn "verde" h) then
    some .puTaxaRon
  else if (strIn "pret total" h || strIn "total" h) && (strIn "taxa" h || strIn "verde" h) then
    some .pretTotalTaxaRon
  else
    none

/-- A canonical extracted row: one `Value` per canonical field (missing
fields are `None`, as the extractor fills them). The `Sheet`/sequence-number
bookkeeping fields are not needed by any claim about the pipeline. -/
structure Row where
  nrCrt : Value := .vnone
  descriere : Value := .vnone
  denumire : Value := .vnone
  codArticol : Value := .vnone
  furnizor : Value := .vnone
  cantitate : Value := .vnone
  puRon : Value := .vnone
  pretTotalRon : Value := .vnone
  puTaxaRon : Value := .vnone
  pretTotalTaxaRon : Value := .vnone
  deriving DecidableEq

/-- Store a cell value into the row slot named by a canonical field
(`row_data[header_map[c]] = val`). -/
def setField (r : Row) (f : HeaderField) (v : Value) : Row :=
  match f with
  | .nrCrt => { r with nrCrt := v }
  | .descriere => { r with descriere := v }
  | .denumire => { r with denumire := v }
  | .codArticol => { r with codArticol := v }
  | .furnizor => { r with furnizor := v }
  | .cantitate => { r with cantitate := v }
  | .puRon => { r with puRon := v }
  | .pretTotalRon => { r with pretTotalRon := v }
  | .puTaxaRon => { r with puTaxaRon := v }
  | .pretTotalTaxaRon => { r with pretTotalTaxaRon := v }

/-- `_is_total_row` from `app.py`: the description, when it is text, contains
or equals one of the summary keywords. -/
def is_total_row (r : Row) : Bool :=
  match r.descriere with
  | .str d =>
    ["total", "suma", "subtotal", "total materiale", "total general",
     "sumă", "sumar", "consolidat"].any
      (fun k => strIn k (pyStrip (pyLower d)) || pyStrip (pyLower d) = k)
  | _ => false

/-- `_is_header_row` from `app.py`: the row repeats header-like text. -/
def is_header_row (r : Row) : Bool :=
  let descr := pyStrip (pyLower (valueStr r.descriere))
  if ["descriere", "denumire", "description"].any (fun k => strIn k descr) then
    true
  else
    let other := [r.denumire, r.codArticol, r.furnizor].map
      (fun v => pyStrip (pyLower (valueStr v)))
    let pats := ["denumire", "cod articol", "furnizor", "cantitate", "p.u.", "pret total"]
    2 ≤ (descr :: other).countP (fun val => pats.any (fun p => strIn p val))

/-- The `not descr or not str(descr).strip()` emptiness test on the
description (`None`, numeric `0` and blank text are "empty"). -/
def descrEmpty (v : Value) : Bool :=
  !pyTruthy v || pyStrip (valueStr v) = ""

/-- One field counts as meaningful when it is not `None`, strips to
non-empty text, and is not one of the placeholders `none`, `n/a`, `-`. -/
def meaningfulField (v : Value) : Bool :=
  v ≠ .vnone && pyStrip (valueStr v) ≠ "" &&
    !(["none", "n/a", "-"].contains (pyLower (pyStrip (valueStr v))))

/-- Number of meaningful fields among Description, Name, ArticleCode,
Supplier, Quantity. -/
def meaningfulCount (r : Row) : Nat :=
  [r.descriere, r.denumire, r.codArticol, r.furnizor, r.cantitate].countP meaningfulField

/-- `_is_valid_item_row` from `app.py`: the sequential validity filter. -/
def is_valid_item_row (r : Row) : Bool :=
  if descrEmpty r.descriere then false
  else if is_header_row r then false
  else if is_total_row r then false
  else 2 ≤ meaningfulCount r

/-- A worksheet as a rectangular-ish grid of cell values (row-major;
openpyxl reports any cell outside the populated area as `None`). -/
structure Sheet where
  grid : List (List Value)

/-- `sheet.cell(r, c).value` with 1-based indices. -/
def cellVal (s : Sheet) (r c : Nat) : Value :=
  (((s.grid.get? (r - 1)).getD []).get? (c - 1)).getD .vnone

/-- `sheet.max_row`. -/
def maxRow (s : Sheet) : Nat := s.grid.length

/-- `sheet.max_column`. -/
def maxCol (s : Sheet) : Nat := (s.grid.map List.length).foldr max 0

/-- The rows `range(1, min(25, sheet.max_row + 1))` actually visited by the
header scan: `1 .. min 24 (maxRow s)`. -/
def scannedRows (s : Sheet) : List Nat := List.range' 1 (min 24 (maxRow s))

/-- The columns `range(1, min(15, sheet.max_column + 1))` actually visited
by the header scan: `1 .. min 14 (maxCol s)`. -/
def scannedCols (s : Sheet) : List Nat := List.range' 1 (min 14 (maxCol s))

/-- The fixed indicator keyword set of the header scan. -/
def headerIndicators : List String :=
  ["nr", "crt", "descriere", "denumire", "cod", "furnizor", "cantitate"]

/-- The `vals` list collected for one scanned row: the truthy cells of the
scanned columns, as `str(v).strip().lower()`. -/
def rowCellTexts (s : Sheet) (r : Nat) : List String :=
  (scannedCols s).filterMap (fun c =>
    if pyTruthy (cellVal s r c) then some (pyLower (pyStrip (valueStr (cellVal s r c))))
    else none)

/-- How many indicator keywords occur as a substring of some collected cell
of row `r`. -/
def rowIndicatorMatches (s : Sheet) (r : Nat) : Nat :=
  headerIndicators.countP (fun ind => (rowCellTexts s r).any (fun cell => strIn ind cell))

/-- Header-row detection of `_extract_data_from_sheet`: the first scanned
row with at least 3 indicator matches. -/
def header_row (s : Sheet) : Option Nat :=
  (scannedRows s).find? (fun r => 3 ≤ rowIndicatorMatches s r)

/-- The column-to-field map built from the detected header row
(`header_map`); columns whose header is falsy or unmapped are absent. -/
def headerMapOf (s : Sheet) (hr : Nat) : List (Nat × HeaderField) :=
  (List.range' 1 (maxCol s)).filterMap (fun c =>
    if pyTruthy (cellVal s hr c) then
      (map_header (valueStr (cellVal s hr c))).map (fun f => (c, f))
    else none)

/-- Build `row_data` (and the `has_data` flag) for data row `r` from the
column map, visiting columns `1 .. max_column` in order. -/
def buildRow (s : Sheet) (hm : List (Nat × HeaderField)) (r : Nat) : Row × Bool :=
  (List.range' 1 (maxCol s)).foldl (fun acc c =>
    match hm.lookup c with
    | some f =>
      (setField acc.1 f (cellVal s r c),
       acc.2 || (cellVal s r c ≠ .vnone && pyStrip (valueStr (cellVal s r c)) ≠ ""))
    | none => acc) ({}, false)

/-- `_extract_data_from_sheet` from `app.py`: detect the header row (a sheet
with none contributes no rows), map its columns, then keep every subsequent
row that has data and passes the validity filter. -/
def extract_data_from_sheet (s : Sheet) : List Row :=
  match header_row s with
  | none => []
  | some hr =>
    ((List.range' (hr + 1) (maxRow s - hr)).map (fun r => buildRow s (headerMapOf s hr) r)).filterMap
      (fun rb => if rb.2 && is_valid_item_row rb.1 then some rb.1 else none)

/-- `_normalize_code` from `app.py`:
`"".join(str(s).strip().upper().split())`, i.e. uppercase and remove every
whitespace character. -/
def normalize_code (s : String) : String :=
  ⟨(pyUpper (pyStrip s)).data.filter (fun c => !pyIsSpace c)⟩

/-- The suffix bucket key: the last 6 characters of a normalized code, or
the whole code when shorter. -/
def sufKey (k : String) : String :=
  if 6 ≤ k.data.length then ⟨k.data.drop (k.data.length - 6)⟩ else k

/-- Append value `b` to the bucket of key `k`, creating the bucket at the
end on first sight — the behaviour of `defaultdict(list)` under
`d[k].append(b)` with insertion-ordered keys. -/
def pushEntry {β : Type} : List (String × List β) → String → β → List (String × List β)
  | [], k, b => [(k, [b])]
  | e :: rest, k, b =>
    if e.1 = k then (e.1, e.2 ++ [b]) :: rest else e :: pushEntry rest k b

/-- Group a list into an insertion-ordered association list of buckets,
storing `val a` under key `key a` — the `defaultdict` grouping loops of the
source. -/
def groupPairs {α β : Type} (key : α → String) (val : α → β) (l : List α) :
    List (String × List β) :=
  l.foldl (fun acc a => pushEntry acc (key a) (val a)) []

/-- Bucket lookup `d.get(k, [])`. -/
def lookupGroups {β : Type} (gs : List (String × List β)) (k : String) : List β :=
  ((gs.find? (fun e => e.1 = k)).map (fun e => e.2)).getD []

/-- `_build_stock_index`'s suffix map `_stock_by_suffix`: buckets of
`(normalized code, quantity)` pairs keyed by the normalized code's last 6
characters. -/
def stock_by_suffix (stock : List (String × ℚ)) : List (String × List (String × ℚ)) :=
  groupPairs (fun kv => sufKey (normalize_code kv.1)) (fun kv => (normalize_code kv.1, kv.2))
    stock

/-- Lookup in `_stock_exact = {normalize(k): v for k, v in stock_data}`;
with duplicate normalized keys the comprehension keeps the last value, hence
the reverse-order search. -/
def stock_exact_find (stock : List (String × ℚ)) (key : String) : Option ℚ :=
  (stock.reverse.find? (fun kv => normalize_code kv.1 = key)).map (fun kv => kv.2)

/-- The fuzzy candidate test of the bucket scan:
`nk.endswith(key) or f" {key} " in f" {nk} "`. -/
def fuzzyMatch (key nk : String) : Bool :=
  strEndsWith nk key || strIn (" " ++ key ++ " ") (" " ++ nk ++ " ")

/-- First fuzzy match of the bucket scan in `find_stock_quantity`. -/
def firstBucketQty (key : String) : List (String × ℚ) → ℚ
  | [] => 0
  | e :: rest => if fuzzyMatch key e.1 then e.2 else firstBucketQty key rest

/-- `find_stock_quantity` from `app.py`. -/
def find_stock_quantity (stock : List (String × ℚ)) (cod : String) : ℚ :=
  if cod = "" || stock.isEmpty then 0
  else
    match stock_exact_find stock (normalize_code cod) with
    | some v => v
    | none =>
      firstBucketQty (normalize_code cod)
        (lookupGroups (stock_by_suffix stock) (sufKey (normalize_code cod)))

/-- First original stock code (in `stock_data` insertion order) whose
normalization equals `nk`. -/
def origFor (stock : List (String × ℚ)) (nk : String) : Option String :=
  (stock.find? (fun kv => normalize_code kv.1 = nk)).map (fun kv => kv.1)

/-- The bucket scan of `find_stock_code`; when no original code normalizes
to the matched key the Python loop falls through to the next candidate. -/
def firstBucketCode (stock : List (String × ℚ)) (key : String) :
    List (String × ℚ) → String
  | [] => ""
  | e :: rest =>
    if fuzzyMatch key e.1 then
      match origFor stock e.1 with
      | some orig => orig
      | none => firstBucketCode stock key rest
    else firstBucketCode stock key rest

/-- `find_stock_code` from `app.py`: the original pre-normalization stock
code behind the (exact or fuzzy) match, `""` when there is none. -/
def find_stock_code (stock : List (String × ℚ)) (cod : String) : String :=
  if cod = "" || stock.isEmpty then ""
  else
    match origFor stock (normalize_code cod) with
    | some orig => orig
    | none =>
      firstBucketCode stock (normalize_code cod)
        (lookupGroups (stock_by_suffix stock) (sufKey (normalize_code cod)))

/-- Python `round(q, 6)` (see the tie-breaking note in the module comment). -/
def round6 (q : ℚ) : ℚ :=
  (round (q * 1000000) : ℤ) / 1000000

/-- Python `int(q)`: truncation toward zero. -/
def truncInt (q : ℚ) : ℤ :=
  if 0 ≤ q then ⌊q⌋ else ⌈q⌉

/-- The quantity rendering of the aggregator:
`int(s) if abs(s - int(s)) < 1e-9 else round(s, 6)`. -/
def qtyRender (s : ℚ) : ℚ :=
  if |s - (truncInt s : ℚ)| < 1 / 1000000000 then (truncInt s : ℚ) else round6 s

/-- `to_float(it.get('Cantitate')) or 0.0` (`or` and `getD` agree because a
parsed `0.0` is replaced by the same `0.0`). -/
def qOf (r : Row) : ℚ := (to_float r.cantitate).getD 0

/-- The `(pu, q)` pair contributed to `pu_pairs` when the unit price parses. -/
def puPair (r : Row) : Option (ℚ × ℚ) :=
  (to_float r.puRon).map (fun p => (p, qOf r))

/-- The `(tpu, q)` pair contributed to `tpu_pairs` when the green-tax unit
price parses. -/
def tpuPair (r : Row) : Option (ℚ × ℚ) :=
  (to_float r.puTaxaRon).map (fun p => (p, qOf r))

/-- One row's contribution to `sum_total`: its own total when present, else
`(pu or 0.0) * q`. -/
def totOr (r : Row) : ℚ :=
  match to_float r.pretTotalRon with
  | some t => t
  | none => ((to_float r.puRon).getD 0) * qOf r

/-- One row's contribution to `sum_tax_total`. -/
def ttotOr (r : Row) : ℚ :=
  match to_float r.pretTotalTaxaRon with
  | some t => t
  | none => ((to_float r.puTaxaRon).getD 0) * qOf r

/-- `wavg` from `_create_centralizator_data`: quantity-weighted average of
the pairs, `0.0` when the quantities sum to zero. -/
def wavg (pairs : List (ℚ × ℚ)) : ℚ :=
  if (pairs.map (fun pq => pq.2)).sum ≠ 0 then
    round6 ((pairs.map (fun pq => pq.1 * pq.2)).sum / (pairs.map (fun pq => pq.2)).sum)
  else 0

/-- One Centralizator output row. -/
structure OutRow where
  descriere : Value
  denumire : Value
  codArticol : String
  furnizor : Value
  cantitate : ℚ
  puRon : ℚ
  pretTotalRon : ℚ
  puTaxaRon : ℚ
  pretTotalTaxaRon : ℚ
  stoc : ℚ
  codStoc : String
  deriving DecidableEq

/-- The grouping key of a coded row:
`str(it.get('Cod articol', '') or '').strip()`. -/
def codeKey (r : Row) : String := pyStrip (valueStr (orEmptyVal r.codArticol))

/-- The grouping key of a code-less row: trimmed description, else trimmed
denomination, else the fixed sentinel. -/
def noCodeKey (r : Row) : String :=
  if pyStrip (valueStr (orEmptyVal r.descriere)) ≠ "" then
    pyStrip (valueStr (orEmptyVal r.descriere))
  else if pyStrip (valueStr (orEmptyVal r.denumire)) ≠ "" then
    pyStrip (valueStr (orEmptyVal r.denumire))
  else "NO_IDENTIFIER"

/-- `items[0]`, the representative row of a group (groups are never empty). -/
def baseRow (items : List Row) : Row := items.headD {}

/-- Aggregate one coded group into its Centralizator row. -/
def aggWithCode (stock : List (String × ℚ)) (g : String × List Row) : OutRow :=
  { descriere := (baseRow g.2).descriere
    denumire := (baseRow g.2).denumire
    codArticol := g.1
    furnizor := (baseRow g.2).furnizor
    cantitate := qtyRender ((g.2.map qOf).sum)
    puRon := wavg (g.2.filterMap puPair)
    pretTotalRon := round6 ((g.2.map totOr).sum)
    puTaxaRon := wavg (g.2.filterMap tpuPair)
    pretTotalTaxaRon := round6 ((g.2.map ttotOr).sum)
    stoc := find_stock_quantity stock g.1
    codStoc := find_stock_code stock g.1 }

/-- Aggregate one code-less group: same arithmetic, but the output article
code is empty and no stock lookup happens. -/
def aggNoCode (g : String × List Row) : OutRow :=
  { descriere := (baseRow g.2).descriere
    denumire := (baseRow g.2).denumire
    codArticol := ""
    furnizor := (baseRow g.2).furnizor
    cantitate := qtyRender ((g.2.map qOf).sum)
    puRon := wavg (g.2.filterMap puPair)
    pretTotalRon := round6 ((g.2.map totOr).sum)
    puTaxaRon := wavg (g.2.filterMap tpuPair)
    pretTotalTaxaRon := round6 ((g.2.map ttotOr).sum)
    stoc := 0
    codStoc := "" }

/-- Python string comparison (`<` by Unicode code points) on char lists. -/
def strLtL : List Char → List Char → Bool
  | [], [] => false
  | [], _ :: _ => true
  | _ :: _, [] => false
  | a :: as, b :: bs =>
    if a.toNat < b.toNat then true
    else if b.toNat < a.toNat then false
    else strLtL as bs

/-- Python `a < b` on strings. -/
def strLtB (a b : String) : Bool := strLtL a.data b.data

/-- Comparison of the second sort-key component. Python compares the raw
`Descriere` values and RAISES `TypeError` on mixed `None`/number/text
groups; the embedding totalizes the order (None < numbers < text) so the
sort is a function — ordering statements about descriptions are made for
text values, where this is exactly Python's string order. -/
def valueLe : Value → Value → Bool
  | .vnone, _ => true
  | .num _, .vnone => false
  | .num a, .num b => a ≤ b
  | .num _, .str _ => true
  | .str _, .vnone => false
  | .str _, .num _ => false
  | .str a, .str b => strLtB a b || a = b

/-- The sort key order of `out.sort(key=lambda x: (x['Cod articol'],
x['Descriere']))`: lexicographic on the pair. -/
def outLe (a b : OutRow) : Bool :=
  strLtB a.codArticol b.codArticol ||
    (a.codArticol = b.codArticol && valueLe a.descriere b.descriere)

/-- Insert into a sorted list, before the first element not below `a` —
keeps earlier elements of equal key first, like Python's stable sort. -/
def insertLe {α : Type} (le : α → α → Bool) (a : α) : List α → List α
  | [] => [a]
  | b :: l => if le a b then a :: b :: l else b :: insertLe le a l

/-- A stable insertion sort modelling Python's ascending `list.sort` (only
sortedness and membership of the result are used by the statements below). -/
def pySort {α : Type} (le : α → α → Bool) : List α → List α
  | [] => []
  | a :: l => insertLe le a (pySort le l)

/-- `_create_centralizator_data` from `app.py`: the partitioning loop sends
every row with a non-empty trimmed code to the coded `defaultdict` and every
other row to the description-keyed one (so the two groupings are the
groupings of the two filtered sublists); both groups are aggregated, the
outputs concatenated and sorted by `(Cod articol, Descriere)`. -/
def create_centralizator_data (stock : List (String × ℚ)) (rows : List Row) :
    List OutRow :=
  pySort outLe
    (((groupPairs codeKey id (rows.filter (fun r => codeKey r ≠ ""))).map
        (aggWithCode stock)) ++
      ((groupPairs noCodeKey id (rows.filter (fun r => codeKey r = ""))).map aggNoCode))

/-- The two rows of the end-to-end example of C1: code "A1", quantities 5
and 7 at unit price 3.0, the total price present on the first row only. -/
def rowA1 : Row :=
  { descriere := .str "Item one", codArticol := .str "A1",
    cantitate := .num 5, puRon := .num 3, pretTotalRon := .num 15 }

/-- Second example row for code "A1" (its total price is omitted). -/
def rowA2 : Row :=
  { descriere := .str "Item one", codArticol := .str "A1",
    cantitate := .num 7, puRon := .num 3 }

/-- A single-row group with unit price 10 but quantity 0 (for C2/C10). -/
def rowZeroQty : Row :=
  { descriere := .str "Zero qty item", codArticol := .str "CX",
    cantitate := .num 0, puRon := .num 10 }

/-- Weighted-average example rows: same code, quantities 2 and 3 at unit
prices 10 and 20. -/
def rowB1 : Row :=
  { descriere := .str "Item B", codArticol := .str "B",
    cantitate := .num 2, puRon := .num 10 }

/-- Companion row to `rowB1`. -/
def rowB2 : Row :=
  { descriere := .str "Item B", codArticol := .str "B",
    cantitate := .num 3, puRon := .num 20 }

/-- Validity-filter example: a row whose only content is
Description = "Total general". -/
def rowTotalGeneral : Row :=
  { descriere := .str "Total general" }

/-- Validity-filter example: Description = "Bolt M8" and Quantity = 10. -/
def rowBolt : Row :=
  { descriere := .str "Bolt M8", cantitate := .str "10" }

/-- Grouping-isolation example: a coded "Widget" row. -/
def rowWidgetCoded : Row :=
  { descriere := .str "Widget", codArticol := .str "WID-1", cantitate := .num 1 }

/-- Grouping-isolation example: a code-less "Widget" row. -/
def rowWidgetNoCode : Row :=
  { descriere := .str "Widget", cantitate := .num 2 }

/-- Two code-less rows with distinct descriptions (for the sort witness). -/
def rowPlainA : Row :=
  { descriere := .str "Alpha", cantitate := .num 1 }

/-- Companion code-less row to `rowPlainA`. -/
def rowPlainB : Row :=
  { descriere := .str "Beta", cantitate := .num 1 }

/-- The stock list of the fuzzy-lookup example: one entry "SUP-000123" with
quantity 17. -/
def stockSup : List (String × ℚ) := [("SUP-000123", 17)]

/-- The header-detection example sheet: one row holding the four header
cells of the spec's example. -/
def sheetHdr : Sheet :=
  { grid := [[.str "Nr crt", .str "Descriere", .str "Denumire", .str "Cod articol"]] }

/-- A sheet with text but no header-like row. -/
def sheetNoHdr : Sheet :=
  { grid := [[.str "hello", .str "world"], [.str "foo", .vnone]] }

/-- The expected Centralizator row of the "A1" end-to-end example. -/
def outA1 : OutRow :=
  { descriere := .str "Item one", denumire := .vnone, codArticol := "A1",
    furnizor := .vnone, cantitate := 12, puRon := 3, pretTotalRon := 36,
    puTaxaRon := 0, pretTotalTaxaRon := 0, stoc := 0, codStoc := "" }

/-- The Centralizator row the code produces for the zero-quantity group:
its unit price is 0, not the row's own 10. -/
def outZeroQty : OutRow :=
  { descriere := .str "Zero qty item", denumire := .vnone, codArticol := "CX",
    furnizor := .vnone, cantitate := 0, puRon := 0, pretTotalRon := 0,
    puTaxaRon := 0, pretTotalTaxaRon := 0, stoc := 0, codStoc := "" }

/-- The expected Centralizator row of the weighted-average example. -/
def outB : OutRow :=
  { descriere := .str "Item B", denumire := .vnone, codArticol := "B",
    furnizor := .vnone, cantitate := 5, puRon := 16, pretTotalRon := 80,
    puTaxaRon := 0, pretTotalTaxaRon := 0, stoc := 0, codStoc := "" }

/-- The expected Centralizator row of the coded "Widget" group. -/
def outWidgetCoded : OutRow :=
  { descriere := .str "Widget", denumire := .vnone, codArticol := "WID-1",
    furnizor := .vnone, cantitate := 1, puRon := 0, pretTotalRon := 0,
    puTaxaRon := 0, pretTotalTaxaRon := 0, stoc := 0, codStoc := "" }

/-- The expected Centralizator row of the code-less "Widget" group. -/
def outWidgetNoCode : OutRow :=
  { descriere := .str "Widget", denumire := .vnone, codArticol := "",
    furnizor := .vnone, cantitate := 2, puRon := 0, pretTotalRon := 0,
    puTaxaRon := 0, pretTotalTaxaRon := 0, stoc := 0, codStoc := "" }

/-- The expected Centralizator row of the code-less "Alpha" row. -/
def outPlainA : OutRow :=
  { descriere := .str "Alpha", denumire := .vnone, codArticol := "",
    furnizor := .vnone, cantitate := 1, puRon := 0, pretTotalRon := 0,
    puTaxaRon := 0, pretTotalTaxaRon := 0, stoc := 0, codStoc := "" }

/-- The expected Centralizator row of the code-less "Beta" row. -/
def outPlainB : OutRow :=
  { descriere := .str "Beta", denumire := .vnone, codArticol := "",
    furnizor := .vnone, cantitate := 1, puRon := 0, pretTotalRon := 0,
    puTaxaRon := 0, pretTotalTaxaRon := 0, stoc := 0, codStoc := "" }

/-- No keyword of the header-mapping rules that precede the price rules
occurs in the processed header text `p`. -/
def noEarlierHeaderKeyword (p : String) : Prop :=
  strIn "nr. crt" p = false ∧ strIn "nr crt" p = false ∧
  strIn "numar crt" p = false ∧ strIn "nr.crt" p = false ∧
  strIn "descriere" p = false ∧ strIn "description" p = false ∧
  strIn "denumire" p = false ∧ strIn "denomination" p = false ∧
  strIn "nume" p = false ∧
  strIn "cod articol" p = false ∧ strIn "cod art" p = false ∧
  strIn "article code" p = false ∧ strIn "cod produs" p = false ∧
  strIn "code" p = false ∧
  strIn "furnizor" p = false ∧ strIn "supplier" p = false ∧
  strIn "provider" p = false ∧
  strIn "cantitate" p = false ∧ strIn "qty" p = false ∧
  strIn "quantity" p = false ∧ strIn "cant" p = false

/-- The spec's formulation of the weighted average (C2's words, stated for
comparison with the source's pair-accumulating `wavg`): the quantity-weighted
average sum(price*quantity)/sum(quantity) over the rows of `l` whose price
field `f` parses, rounded to 6 decimals, and 0 when those quantities sum to
0 (in particular when no row qualifies). -/
def specWeightedAvg (f : Row → Option ℚ) (l : List Row) : ℚ :=
  if ((l.filter (fun r => (f r).isSome)).map qOf).sum ≠ 0 then
    round6 (((l.filter (fun r => (f r).isSome)).map
        (fun r => ((f r).getD 0) * qOf r)).sum /
      ((l.filter (fun r => (f r).isSome)).map qOf).sum)
  else 0

/-- Code point of the digit character 0. -/
@[simp] theorem chTn0 : '0'.toNat = 48 := rfl

/-- Code point of the digit character 1. -/
@[simp] theorem chTn1 : '1'.toNat = 49 := rfl

/-- Code point of the digit character 2. -/
@[simp] theorem chTn2 : '2'.toNat = 50 := rfl

/-- Code point of the digit character 3. -/
@[simp] theorem chTn3 : '3'.toNat = 51 := rfl

/-- Code point of the digit character 4. -/
@[simp] theorem chTn4 : '4'.toNat = 52 := rfl

/-- Code point of the digit character 5. -/
@[simp] theorem chTn5 : '5'.toNat = 53 := rfl

/-- Code point of the digit character 6. -/
@[simp] theorem chTn6 : '6'.toNat = 54 := rfl

/-- Code point of the digit character 7. -/
@[simp] theorem chTn7 : '7'.toNat = 55 := rfl

/-- Code point of the digit character 8. -/
@[simp] theorem chTn8 : '8'.toNat = 56 := rfl

/-- Code point of the digit character 9. -/
@[simp] theorem chTn9 : '9'.toNat = 57 := rfl

/-- Characters with equal code points are equal. -/
theorem charToNat_inj {a b : Char} (h : a.toNat = b.toNat) : a = b := by
  rcases a with ⟨⟨av, hav⟩, ha⟩
  rcases b with ⟨⟨bv, hbv⟩, hb⟩
  simp [Char.toNat, UInt32.toNat] at h
  subst h
  rfl

/-- The code-point string order is transitive. -/
theorem strLtL_trans : ∀ as bs cs : List Char,
    strLtL as bs = true → strLtL bs cs = true → strLtL as cs = true
  | [], bs, cs, h1, h2 => by
    cases bs with
    | nil => simp [strLtL] at h1
    | cons b bs =>
      cases cs with
      | nil => simp [strLtL] at h2
      | cons c cs => simp [strLtL]
  | a :: as, [], cs, h1, _ => by simp [strLtL] at h1
  | a :: as, b :: bs, [], _, h2 => by simp [strLtL] at h2
  | a :: as, b :: bs, c :: cs, h1, h2 => by
    simp only [strLtL] at h1 h2 ⊢
    rcases Nat.lt_trichotomy a.toNat b.toNat with hab | hab | hab
    · rcases Nat.lt_trichotomy b.toNat c.toNat with hbc | hbc | hbc
      · simp [Nat.lt_trans hab hbc]
      · simp [hbc ▸ hab]
      · rw [if_neg (Nat.lt_asymm hbc), if_pos hbc] at h2
        cases h2
    · rw [if_neg (by omega), if_neg (by omega)] at h1
      rcases Nat.lt_trichotomy b.toNat c.toNat with hbc | hbc | hbc
      · simp [hab ▸ hbc]
      · rw [if_neg (by omega), if_neg (by omega)] at h2
        rw [if_neg (by omega), if_neg (by omega)]
        exact strLtL_trans as bs cs h1 h2
      · rw [if_neg (Nat.lt_asymm hbc), if_pos hbc] at h2
        cases h2
    · rw [if_neg (Nat.lt_asymm hab), if_pos hab] at h1
      cases h1

/-- Code-point string order trichotomy. -/
theorem strLtL_tri : ∀ as bs : List Char,
    strLtL as bs = true ∨ strLtL bs as = true ∨ as = bs
  | [], [] => .inr (.inr rfl)
  | [], _ :: _ => .inl (by simp [strLtL])
  | _ :: _, [] => .inr (.inl (by simp [strLtL]))
  | a :: as, b :: bs => by
    rcases Nat.lt_trichotomy a.toNat b.toNat with hab | hab | hab
    · exact .inl (by simp [strLtL, hab])
    · have hba : a = b := charToNat_inj hab
      subst hba
      rcases strLtL_tri as bs with h | h | h
      · exact .inl (by simp [strLtL, h])
      · exact .inr (.inl (by simp [strLtL, h]))
      · exact .inr (.inr (by rw [h]))
    · exact .inr (.inl (by simp [strLtL, hab]))

/-- The string order is irreflexive. -/
theorem strLtL_irrefl : ∀ as : List Char, strLtL as as = false
  | [] => rfl
  | a :: as => by simp [strLtL, strLtL_irrefl as]

/-- Nothing is below the empty string. -/
theorem strLtB_empty_right (s : String) : strLtB s "" = false := by
  rcases s with ⟨d⟩
  cases d with
  | nil => rfl
  | cons a as => rfl

/-- Membership in `insertLe`. -/
theorem mem_insertLe {α : Type} (le : α → α → Bool) (a x : α) :
    ∀ l : List α, x ∈ insertLe le a l ↔ x = a ∨ x ∈ l
  | [] => by simp [insertLe]
  | b :: l => by
    by_cases h : le a b
    · simp [insertLe, h]
    · simp only [insertLe, if_neg h, List.mem_cons, mem_insertLe le a x l]
      tauto

/-- Membership is preserved by `pySort`. -/
theorem mem_pySort {α : Type} (le : α → α → Bool) (x : α) :
    ∀ l : List α, x ∈ pySort le l ↔ x ∈ l
  | [] => Iff.rfl
  | a :: l => by
    rw [pySort, mem_insertLe, mem_pySort le x l, List.mem_cons]

/-- Inserting into a sorted list keeps it sorted, for a transitive and total
boolean order. -/
theorem pairwise_insertLe {α : Type} (le : α → α → Bool)
    (htrans : ∀ a b c, le a b = true → le b c = true → le a c = true)
    (htot : ∀ a b, le a b = true ∨ le b a = true) (a : α) :
    ∀ l : List α, l.Pairwise (fun x y => le x y = true) →
      (insertLe le a l).Pairwise (fun x y => le x y = true)
  | [], _ => by simp [insertLe]
  | b :: l, hp => by
    rcases List.pairwise_cons.mp hp with ⟨hb, hl⟩
    by_cases h : le a b
    · rw [insertLe, if_pos h]
      refine List.pairwise_cons.mpr ⟨?_, hp⟩
      intro y hy
      rcases List.mem_cons.mp hy with rfl | hy
      · exact h
      · exact htrans a b y h (hb y hy)
    · have hba : le b a = true := (htot a b).resolve_left (by simpa using h)
      rw [insertLe, if_neg h]
      refine List.pairwise_cons.mpr ⟨?_, pairwise_insertLe le htrans htot a l hl⟩
      intro y hy
      rcases (mem_insertLe le a y l).mp hy with rfl | hy
      · exact hba
      · exact hb y hy

/-- `pySort` sorts, for a transitive and total boolean order. -/
theorem pairwise_pySort {α : Type} (le : α → α → Bool)
    (htrans : ∀ a b c, le a b = true → le b c = true → le a c = true)
    (htot : ∀ a b, le a b = true ∨ le b a = true) :
    ∀ l : List α, (pySort le l).Pairwise (fun x y => le x y = true)
  | [] => by simp [pySort]
  | a :: l => pairwise_insertLe le htrans htot a _ (pairwise_pySort le htrans htot l)

/-- Equal character data gives equal strings. -/
theorem strData_inj {x y : String} (h : x.data = y.data) : x = y := by
  rcases x with ⟨xd⟩
  rcases y with ⟨yd⟩
  simp only at h
  subst h
  rfl

/-- The totalized description order is transitive. -/
theorem valueLe_trans : ∀ a b c : Value,
    valueLe a b = true → valueLe b c = true → valueLe a c = true
  | .vnone, _, _, _, _ => rfl
  | .num _, .vnone, _, h1, _ => by simp [valueLe] at h1
  | .num a, .num b, .vnone, _, h2 => by simp [valueLe] at h2
  | .num a, .num b, .num c, h1, h2 => by
    simp only [valueLe, decide_eq_true_eq] at h1 h2 ⊢
    exact le_trans h1 h2
  | .num _, .num _, .str _, _, _ => rfl
  | .num _, .str _, .vnone, _, h2 => by simp [valueLe] at h2
  | .num _, .str _, .num _, _, h2 => by simp [valueLe] at h2
  | .num _, .str _, .str _, _, _ => rfl
  | .str _, .vnone, _, h1, _ => by simp [valueLe] at h1
  | .str _, .num _, _, h1, _ => by simp [valueLe] at h1
  | .str x, .str y, .vnone, _, h2 => by simp [valueLe] at h2
  | .str x, .str y, .num _, _, h2 => by simp [valueLe] at h2
  | .str x, .str y, .str z, h1, h2 => by
    simp only [valueLe, strLtB, Bool.or_eq_true, decide_eq_true_eq] at h1 h2 ⊢
    rcases h1 with h1 | rfl
    · rcases h2 with h2 | rfl
      · exact .inl (strLtL_trans _ _ _ h1 h2)
      · exact .inl h1
    · exact h2

/-- The totalized description order is total. -/
theorem valueLe_total : ∀ a b : Value, valueLe a b = true ∨ valueLe b a = true
  | .vnone, _ => .inl rfl
  | .num _, .vnone => .inr rfl
  | .str _, .vnone => .inr rfl
  | .num a, .num b => by
    simp only [valueLe, decide_eq_true_eq]
    exact le_total a b
  | .num _, .str _ => .inl rfl
  | .str _, .num _ => .inr rfl
  | .str x, .str y => by
    simp only [valueLe, strLtB, Bool.or_eq_true, decide_eq_true_eq]
    rcases strLtL_tri x.data y.data with h | h | h
    · exact .inl (.inl h)
    · exact .inr (.inl h)
    · exact .inl (.inr (strData_inj h))

/-- The sort-key order on output rows is transitive. -/
theorem outLe_trans : ∀ a b c : OutRow,
    outLe a b = true → outLe b c = true → outLe a c = true := by
  intro a b c h1 h2
  simp only [outLe, strLtB, Bool.or_eq_true, Bool.and_eq_true, decide_eq_true_eq] at h1 h2 ⊢
  rcases h1 with h1 | ⟨he1, hv1⟩ <;> rcases h2 with h2 | ⟨he2, hv2⟩
  · exact .inl (strLtL_trans _ _ _ h1 h2)
  · exact .inl (he2 ▸ h1)
  · exact .inl (he1 ▸ h2)
  · exact .inr ⟨he1.trans he2, valueLe_trans _ _ _ hv1 hv2⟩

/-- The sort-key order on output rows is total. -/
theorem outLe_total : ∀ a b : OutRow, outLe a b = true ∨ outLe b a = true := by
  intro a b
  simp only [outLe, strLtB, Bool.or_eq_true, Bool.and_eq_true, decide_eq_true_eq]
  rcases strLtL_tri a.codArticol.data b.codArticol.data with h | h | h
  · exact .inl (.inl h)
  · exact .inr (.inl h)
  · have he : a.codArticol = b.codArticol := strData_inj h
    rcases valueLe_total a.descriere b.descriere with hv | hv
    · exact .inl (.inr ⟨he, hv⟩)
    · exact .inr (.inr ⟨he.symm, hv⟩)

/-- The keys of a bucket list. -/
def keysOf {β : Type} (gs : List (String × List β)) : List String :=
  gs.map (fun e => e.1)

/-- How one `pushEntry` changes a bucket lookup. -/
theorem lookupGroups_pushEntry {β : Type} :
    ∀ (acc : List (String × List β)) (k' : String) (b : β) (k : String),
      lookupGroups (pushEntry acc k' b) k =
        if k' = k then lookupGroups acc k ++ [b] else lookupGroups acc k
  | [], k', b, k => by
    by_cases h : k' = k <;> simp [pushEntry, lookupGroups, h]
  | e :: acc, k', b, k => by
    by_cases h1 : e.1 = k'
    · rw [pushEntry, if_pos h1]
      by_cases h2 : k' = k
      · have h3 : e.1 = k := h1.trans h2
        simp [lookupGroups, List.find?_cons, h3, h2]
      · have h3 : ¬ e.1 = k := fun hh => h2 (h1 ▸ hh)
        simp [lookupGroups, List.find?_cons, h3, h2]
    · rw [pushEntry, if_neg h1]
      by_cases h3 : e.1 = k
      · have h2 : ¬ k' = k := fun hh => h1 (h3.trans hh.symm)
        simp [lookupGroups, List.find?_cons, h3, h2]
      · have hrec := lookupGroups_pushEntry acc k' b k
        by_cases h2 : k' = k <;>
          simp_all [lookupGroups, List.find?_cons, h3, h2]

/-- Folding `pushEntry` over a list appends exactly the key's preimage. -/
theorem lookupGroups_fold {α β : Type} (key : α → String) (val : α → β) :
    ∀ (l : List α) (acc : List (String × List β)) (k : String),
      lookupGroups (l.foldl (fun a x => pushEntry a (key x) (val x)) acc) k =
        lookupGroups acc k ++ (l.filter (fun x => key x = k)).map val
  | [], acc, k => by simp
  | x :: l, acc, k => by
    rw [List.foldl_cons, lookupGroups_fold key val l (pushEntry acc (key x) (val x)) k,
      lookupGroups_pushEntry]
    by_cases h : key x = k <;> simp [h, List.filter_cons]

/-- The bucket of key `k` built by `groupPairs` is the image of the key's
preimage, in encounter order. -/
theorem lookupGroups_groupPairs {α β : Type} (key : α → String) (val : α → β)
    (l : List α) (k : String) :
    lookupGroups (groupPairs key val l) k = (l.filter (fun x => key x = k)).map val := by
  rw [groupPairs, lookupGroups_fold]
  simp [lookupGroups]

/-- `pushEntry` only adds the pushed key. -/
theorem mem_keys_pushEntry {β : Type} :
    ∀ (acc : List (String × List β)) (k' : String) (b : β) (x : String),
      x ∈ keysOf (pushEntry acc k' b) ↔ x ∈ keysOf acc ∨ x = k'
  | [], k', b, x => by simp [pushEntry, keysOf]
  | e :: acc, k', b, x => by
    by_cases h : e.1 = k'
    · rw [pushEntry, if_pos h]
      simp only [keysOf, List.map_cons, List.mem_cons]
      subst h
      tauto
    · simp only [pushEntry, if_neg h, keysOf, List.map_cons, List.mem_cons]
      rw [show List.map (fun e => e.1) (pushEntry acc k' b) = keysOf (pushEntry acc k' b) from rfl,
        mem_keys_pushEntry acc k' b x]
      tauto

/-- `pushEntry` keeps bucket keys distinct. -/
theorem keysNodup_pushEntry {β : Type} :
    ∀ (acc : List (String × List β)) (k' : String) (b : β),
      (keysOf acc).Nodup → (keysOf (pushEntry acc k' b)).Nodup
  | [], k', b, _ => by simp [pushEntry, keysOf]
  | e :: acc, k', b, hn => by
    rw [keysOf, List.map_cons, List.nodup_cons] at hn
    by_cases h : e.1 = k'
    · rw [pushEntry, if_pos h]
      rw [keysOf, List.map_cons, List.nodup_cons]
      exact hn
    · rw [pushEntry, if_neg h]
      rw [keysOf, List.map_cons, List.nodup_cons]
      refine ⟨?_, keysNodup_pushEntry acc k' b hn.2⟩
      intro hmem
      rcases (mem_keys_pushEntry acc k' b e.1).mp hmem with hx | hx
      · exact hn.1 hx
      · exact h hx

/-- The bucket keys produced by `groupPairs` are distinct. -/
theorem keysNodup_fold {α β : Type} (key : α → String) (val : α → β) :
    ∀ (l : List α) (acc : List (String × List β)),
      (keysOf acc).Nodup →
        (keysOf (l.foldl (fun a x => pushEntry a (key x) (val x)) acc)).Nodup
  | [], _acc, h => h
  | x :: l, acc, h =>
    keysNodup_fold key val l _ (keysNodup_pushEntry acc (key x) (val x) h)

/-- Every key of `groupPairs` is the key of some list element. -/
theorem keys_fold_sub {α β : Type} (key : α → String) (val : α → β) :
    ∀ (l : List α) (acc : List (String × List β)) (x : String),
      x ∈ keysOf (l.foldl (fun a y => pushEntry a (key y) (val y)) acc) →
        x ∈ keysOf acc ∨ ∃ a ∈ l, key a = x
  | [], acc, x, h => .inl h
  | y :: l, acc, x, h => by
    rcases keys_fold_sub key val l _ x h with h2 | ⟨a, ha, hk⟩
    · rcases (mem_keys_pushEntry acc (key y) (val y) x).mp h2 with h3 | rfl
      · exact .inl h3
      · exact .inr ⟨y, List.mem_cons_self y l, rfl⟩
    · exact .inr ⟨a, List.mem_cons_of_mem y ha, hk⟩

/-- In a bucket list with distinct keys, a member is what `find?` returns. -/
theorem find?_of_mem_nodup {β : Type} :
    ∀ (gs : List (String × List β)), (keysOf gs).Nodup →
      ∀ p ∈ gs, gs.find? (fun e => e.1 = p.1) = some p
  | [], _, p, hp => by simp at hp
  | e :: gs, hn, p, hp => by
    rw [keysOf, List.map_cons, List.nodup_cons] at hn
    rcases List.mem_cons.mp hp with rfl | hp2
    · simp [List.find?_cons]
    · have hne : ¬ e.1 = p.1 := by
        intro hh
        exact hn.1 (hh ▸ List.mem_map_of_mem (fun q => q.1) hp2)
      rw [List.find?_cons]
      simp only [decide_eq_false hne]
      exact find?_of_mem_nodup gs hn.2 p hp2

/-- A bucket of `groupPairs` holds exactly the image of its key's preimage. -/
theorem mem_groupPairs_eq_filter {α β : Type} (key : α → String) (val : α → β)
    (l : List α) (p : String × List β) (hp : p ∈ groupPairs key val l) :
    p.2 = (l.filter (fun x => key x = p.1)).map val := by
  have hnd : (keysOf (groupPairs key val l)).Nodup :=
    keysNodup_fold key val l [] (by simp [keysOf])
  have hf := find?_of_mem_nodup (groupPairs key val l) hnd p hp
  have := lookupGroups_groupPairs key val l p.1
  rw [lookupGroups, hf] at this
  simpa using this

/-- Every key of `groupPairs` comes from some element of the list. -/
theorem mem_groupPairs_key {α β : Type} (key : α → String) (val : α → β)
    (l : List α) (p : String × List β) (hp : p ∈ groupPairs key val l) :
    ∃ a ∈ l, key a = p.1 := by
  have : p.1 ∈ keysOf (groupPairs key val l) :=
    List.mem_map_of_mem (fun q => q.1) hp
  rcases keys_fold_sub key val l [] p.1 this with h | h
  · simp [keysOf] at h
  · exact h

/-- `find?` over `range' s n` returns exactly the least qualifying number of
the scanned interval. -/
theorem find?_range'_iff (p : Nat → Bool) :
    ∀ (n s r : Nat),
      (List.range' s n).find? p = some r ↔
        (s ≤ r ∧ r < s + n ∧ p r = true ∧ ∀ k, s ≤ k → k < r → p k = false)
  | 0, s, r => by
    simp only [List.range', List.find?_nil]
    constructor
    · intro h
      cases h
    · rintro ⟨h1, h2, _, _⟩
      omega
  | n + 1, s, r => by
    rw [List.range'_succ, List.find?_cons]
    by_cases hs : p s
    · simp only [hs]
      constructor
      · rintro h
        cases h
        exact ⟨le_rfl, by omega, hs, fun k hk1 hk2 => by omega⟩
      · rintro ⟨h1, _, _, h4⟩
        have : r = s := by
          by_contra hne
          have : p s = false := h4 s le_rfl (by omega)
          rw [this] at hs
          cases hs
        rw [this]
    · have hsf : p s = false := by
        cases hps : p s
        · rfl
        · exact absurd hps hs
      simp only [hsf]
      rw [find?_range'_iff p n (s + 1) r]
      constructor
      · rintro ⟨h1, h2, h3, h4⟩
        refine ⟨by omega, by omega, h3, fun k hk1 hk2 => ?_⟩
        by_cases hk : k = s
        · rw [hk]
          exact hsf
        · exact h4 k (by omega) hk2
      · rintro ⟨h1, h2, h3, h4⟩
        have hrs : ¬ r = s := by
          intro hh
          rw [hh] at h3
          rw [h3] at hsf
          cases hsf
        exact ⟨by omega, by omega, h3, fun k hk1 hk2 => h4 k (by omega) hk2⟩

/-- The quantity components of the unit-price pairs sum to the quantity sum
over the rows that provide a unit price. -/
theorem pairs_snd_sum {α : Type} (f : α → Option ℚ) (q : α → ℚ) :
    ∀ l : List α,
      ((l.filterMap (fun r => (f r).map (fun p => (p, q r)))).map
          (fun pq => pq.2)).sum =
        ((l.filter (fun r => (f r).isSome)).map q).sum
  | [] => rfl
  | r :: l => by
    cases hf : f r <;>
      simp [List.filterMap_cons, List.filter_cons, hf, pairs_snd_sum f q l]

/-- The product components of the unit-price pairs sum to the
price-times-quantity sum over the rows that provide a unit price. -/
theorem pairs_mul_sum {α : Type} (f : α → Option ℚ) (q : α → ℚ) :
    ∀ l : List α,
      ((l.filterMap (fun r => (f r).map (fun p => (p, q r)))).map
          (fun pq => pq.1 * pq.2)).sum =
        ((l.filter (fun r => (f r).isSome)).map
            (fun r => ((f r).getD 0) * q r)).sum
  | [] => rfl
  | r :: l => by
    cases hf : f r <;>
      simp [List.filterMap_cons, List.filter_cons, hf, pairs_mul_sum f q l]

/-- An output row of the coded pass. -/
theorem mem_centralizator_cases (stock : List (String × ℚ)) (rows : List Row)
    (o : OutRow) (ho : o ∈ create_centralizator_data stock rows) :
    (∃ p ∈ groupPairs codeKey id (rows.filter (fun r => codeKey r ≠ "")),
        aggWithCode stock p = o) ∨
      (∃ p ∈ groupPairs noCodeKey id (rows.filter (fun r => codeKey r = "")),
        aggNoCode p = o) := by
  rw [create_centralizator_data, mem_pySort, List.mem_append] at ho
  rcases ho with h | h
  · exact .inl (List.mem_map.mp h)
  · exact .inr (List.mem_map.mp h)

/-- Every output row whose article code is a given non-empty `c` is the
aggregation of exactly the input rows whose trimmed code is `c`. -/
theorem mem_centralizator_coded (stock : List (String × ℚ)) (rows : List Row)
    (o : OutRow) (ho : o ∈ create_centralizator_data stock rows)
    (hc : o.codArticol ≠ "") :
    o = aggWithCode stock
        (o.codArticol, rows.filter (fun r => codeKey r = o.codArticol)) := by
  rcases mem_centralizator_cases stock rows o ho with ⟨p, hp, hagg⟩ | ⟨p, hp, hagg⟩
  · rcases p with ⟨pk, pl⟩
    have hkey : o.codArticol = pk := by rw [← hagg]; exact rfl
    have hcpk : pk ≠ "" := hkey ▸ hc
    have hgrp := mem_groupPairs_eq_filter codeKey id _ ⟨pk, pl⟩ hp
    simp only at hgrp
    have hfilter : (rows.filter (fun r => codeKey r ≠ "")).filter
        (fun x => codeKey x = pk) = rows.filter (fun r => codeKey r = pk) := by
      rw [List.filter_filter]
      refine List.filter_congr ?_
      intro x _
      by_cases hx : codeKey x = pk
      · simp [hx, hcpk]
      · simp [hx]
    have hp2 : pl = rows.filter (fun r => codeKey r = pk) := by
      rw [hgrp, hfilter, List.map_id]
    rw [hkey, ← hp2]
    exact hagg.symm
  · rw [← hagg] at hc
    exact absurd rfl hc


/-- C3: the NumberParser is total — every cell value yields a number or "no
value", never an exception; numeric inputs pass through as floats; for text
(after trimming, non-breaking-space replacement and whitespace removal) a
digits-comma-digits tail makes the comma the decimal separator with periods
removed, otherwise commas are removed; and the spec's example inputs parse
as stated. -/
theorem C3_number_parsing :
    (∀ v : Value, to_float v = none ∨ ∃ q : ℚ, to_float v = some q) ∧
    (∀ q : ℚ, to_float (Value.num q) = some q) ∧
    (∀ s : String, s ≠ "" → euDecimalTail (cleanNum s) = true →
      to_float (Value.str s) = pyFloatParse (euSwap (cleanNum s))) ∧
    (∀ s : String, s ≠ "" → euDecimalTail (cleanNum s) = false →
      to_float (Value.str s) = pyFloatParse (dropCommas (cleanNum s))) ∧
    to_float (Value.str "1.234,56") = some (1234.56 : ℚ) ∧
    to_float (Value.str "1,234.56") = some (1234.56 : ℚ) ∧
    to_float (Value.str "1234") = some (1234 : ℚ) ∧
    to_float (Value.str "") = none ∧
    to_float Value.vnone = none ∧
    to_float (Value.str "abc") = none := by
  refine ⟨?_, fun q => rfl, ?_, ?_, ?_, ?_, ?_, rfl, rfl, ?_⟩
  · intro v
    cases h : to_float v
    · exact .inl rfl
    · exact .inr ⟨_, rfl⟩
  · intro s h1 h2
    simp only [to_float, h1, h2, if_true, if_false, ite_false, ite_true]
  · intro s h1 h2
    simp only [to_float, h1, h2, if_true, if_false, ite_false, ite_true,
      Bool.false_eq_true]
  · norm_num +decide [to_float, cleanNum, pyStrip, pyIsSpace, euDecimalTail, euSwap,
      dropCommas, pyFloatParse, parseBody, parseFraction, parseExpTail, parseExpSigned,
      parseExpDigits, digitsVal, List.span, List.span.loop, Char.isDigit]
  · norm_num +decide [to_float, cleanNum, pyStrip, pyIsSpace, euDecimalTail, euSwap,
      dropCommas, pyFloatParse, parseBody, parseFraction, parseExpTail, parseExpSigned,
      parseExpDigits, digitsVal, List.span, List.span.loop, Char.isDigit]
  · norm_num +decide [to_float, cleanNum, pyStrip, pyIsSpace, euDecimalTail, euSwap,
      dropCommas, pyFloatParse, parseBody, parseFraction, parseExpTail, parseExpSigned,
      parseExpDigits, digitsVal, List.span, List.span.loop, Char.isDigit]
  · norm_num +decide [to_float, cleanNum, pyStrip, pyIsSpace, euDecimalTail, euSwap,
      dropCommas, pyFloatParse, parseBody, parseFraction, parseExpTail, parseExpSigned,
      parseExpDigits, digitsVal, List.span, List.span.loop, Char.isDigit]

/-- Witness for C3 at the concrete EU-format input. -/
theorem C3_number_parsing_witness :
    (("1.234,56" : String) ≠ "" ∧ euDecimalTail (cleanNum "1.234,56") = true) ∧
    to_float (Value.str "1.234,56") = pyFloatParse (euSwap (cleanNum "1.234,56")) :=
  ⟨⟨by decide, by decide⟩, C3_number_parsing.2.2.1 "1.234,56" (by decide) (by decide)⟩

/-- Python's `in` agrees with list-infix on the character data. -/
theorem strIn_iff_infix_chars (n h : String) : strIn n h = true ↔ n.data <:+: h.data := by
  rw [strIn, List.any_eq_true, List.infix_iff_prefix_suffix]
  constructor
  · rintro ⟨t, ht, hp⟩
    exact ⟨t, List.isPrefixOf_iff_prefix.mp hp, (List.mem_tails _ _).mp ht⟩
  · rintro ⟨t, h1, h2⟩
    exact ⟨t, (List.mem_tails _ _).mpr h2, List.isPrefixOf_iff_prefix.mpr h1⟩

/-- Python's `in` is transitive. -/
theorem strIn_trans {a b c : String} (h1 : strIn a b = true) (h2 : strIn b c = true) :
    strIn a c = true := by
  rw [strIn_iff_infix_chars] at h1 h2 ⊢
  exact h1.trans h2

/-- Counterexample to C4 as stated: the header "Unit Price Taxa Verde (RON)"
contains the price-unit marker "unit price" together with the green-tax
marker "taxa", yet `_map_header` maps it to nothing at all (the green
unit-price rule only recognises "p.u." and "pret unitar"), not to the
green-tax field. -/
theorem C4_counterexample :
    strIn "unit price" (headerKey "Unit Price Taxa Verde (RON)") = true ∧
    strIn "taxa" (headerKey "Unit Price Taxa Verde (RON)") = true ∧
    map_header "Unit Price Taxa Verde (RON)" = none := by
  refine ⟨by decide, by decide, by decide⟩

/-- C4 (amended): a header containing a price-unit or total-price marker
together with a green-tax marker is never mapped to the plain
UnitPrice/TotalPrice field, because the plain rules exclude green-tax
matches; it maps to the green-tax field when additionally no
earlier-precedence keyword occurs and, for the unit-price case, the marker
is "p.u." or "pret unitar"; in particular "Pret total Taxa Verde (RON)"
maps to GreenTaxTotalPrice and never to TotalPrice. -/
theorem C4_green_tax_precedence :
    (∀ h : String,
      (strIn "p.u." (headerKey h) = true ∨ strIn "pret unitar" (headerKey h) = true ∨
        strIn "unit price" (headerKey h) = true ∨
        strIn "pret total" (headerKey h) = true ∨ strIn "total price" (headerKey h) = true) →
      (strIn "taxa" (headerKey h) = true ∨ strIn "verde" (headerKey h) = true) →
      map_header h ≠ some .puRon ∧ map_header h ≠ some .pretTotalRon) ∧
    (∀ h : String, noEarlierHeaderKeyword (headerKey h) →
      (strIn "p.u." (headerKey h) = true ∨ strIn "pret unitar" (headerKey h) = true) →
      (strIn "taxa" (headerKey h) = true ∨ strIn "verde" (headerKey h) = true) →
      map_header h = some .puTaxaRon) ∧
    (∀ h : String, noEarlierHeaderKeyword (headerKey h) →
      strIn "p.u." (headerKey h) = false → strIn "pret unitar" (headerKey h) = false →
      (strIn "pret total" (headerKey h) = true ∨ strIn "total price" (headerKey h) = true) →
      (strIn "taxa" (headerKey h) = true ∨ strIn "verde" (headerKey h) = true) →
      map_header h = some .pretTotalTaxaRon) ∧
    map_header "Pret total Taxa Verde (RON)" = some .pretTotalTaxaRon := by
  refine ⟨?_, ?_, ?_, by decide⟩
  · intro h _ hg
    have h7 : ((strIn "p.u." (headerKey h) || strIn "pret unitar" (headerKey h) ||
        strIn "unit price" (headerKey h)) && !strIn "taxa" (headerKey h) &&
        !strIn "verde" (headerKey h)) = false := by
      rcases hg with hg | hg <;> simp [hg]
    have h8 : ((strIn "pret total" (headerKey h) || strIn "total price" (headerKey h)) &&
        !strIn "taxa" (headerKey h) && !strIn "verde" (headerKey h)) = false := by
      rcases hg with hg | hg <;> simp [hg]
    simp only [map_header, h7, h8, Bool.false_eq_true, if_false]
    split_ifs <;> simp
  · intro h hne hm hg
    rcases hne with ⟨e1, e2, e3, e4, e5, e6, e7, e8, e9, e10, e11, e12, e13, e14,
      e15, e16, e17, e18, e19, e20, e21⟩
    rcases hm with hm | hm <;> rcases hg with hg | hg <;>
      simp [map_header, e1, e2, e3, e4, e5, e6, e7, e8, e9, e10, e11, e12, e13, e14,
        e15, e16, e17, e18, e19, e20, e21, hm, hg]
  · intro h hne hp1 hp2 hm hg
    rcases hne with ⟨e1, e2, e3, e4, e5, e6, e7, e8, e9, e10, e11, e12, e13, e14,
      e15, e16, e17, e18, e19, e20, e21⟩
    have htot : strIn "total" (headerKey h) = true := by
      rcases hm with hm | hm
      · exact strIn_trans (by decide) hm
      · exact strIn_trans (by decide) hm
    rcases hm with hm | hm <;> rcases hg with hg | hg <;>
      simp [map_header, e1, e2, e3, e4, e5, e6, e7, e8, e9, e10, e11, e12, e13, e14,
        e15, e16, e17, e18, e19, e20, e21, hm, hg, hp1, hp2, htot]

/-- Witness for the amended C4 at the header "P.U. Taxa Verde (RON)". -/
theorem C4_green_tax_precedence_witness :
    (noEarlierHeaderKeyword (headerKey "P.U. Taxa Verde (RON)") ∧
      strIn "p.u." (headerKey "P.U. Taxa Verde (RON)") = true ∧
      strIn "taxa" (headerKey "P.U. Taxa Verde (RON)") = true) ∧
    map_header "P.U. Taxa Verde (RON)" = some .puTaxaRon :=
  ⟨⟨by unfold noEarlierHeaderKeyword; decide, by decide, by decide⟩,
    C4_green_tax_precedence.2.1 "P.U. Taxa Verde (RON)"
      (by unfold noEarlierHeaderKeyword; decide)
      (.inl (by decide)) (.inl (by decide))⟩

/-- C6: the validity filter drops a row exactly when the description is
empty (falsy or blank), or the row repeats header-like text, or the trimmed
lower-cased description matches a summary keyword, or fewer than 2 of
{Description, Name, ArticleCode, Supplier, Quantity} hold a non-empty
non-placeholder value; a row with only Description "Total general" is
rejected and one with Description "Bolt M8" and Quantity 10 is accepted. -/
theorem C6_validity_filter :
    (∀ r : Row, is_valid_item_row r = true ↔
      ¬(descrEmpty r.descriere = true ∨ is_header_row r = true ∨
        is_total_row r = true ∨ meaningfulCount r < 2)) ∧
    is_valid_item_row rowTotalGeneral = false ∧
    is_total_row rowTotalGeneral = true ∧
    is_valid_item_row rowBolt = true ∧
    meaningfulCount rowBolt = 2 := by
  refine ⟨?_, by decide, by decide, by decide, by decide⟩
  intro r
  rw [is_valid_item_row]
  split_ifs with h1 h2 h3
  · simp [h1]
  · simp [h1, h2]
  · simp [h1, h2, h3]
  · simp only [h1, h2, h3, Bool.false_eq_true, false_or, decide_eq_true_eq]
    omega

/-- Witness for C6: the filter equivalence applied to the accepted example
row. -/
theorem C6_validity_filter_witness :
    is_valid_item_row rowBolt = true ↔
      ¬(descrEmpty rowBolt.descriere = true ∨ is_header_row rowBolt = true ∨
        is_total_row rowBolt = true ∨ meaningfulCount rowBolt < 2) :=
  C6_validity_filter.1 rowBolt

/-- C1: for every group of rows sharing the same non-empty trimmed article
code, the Centralizator row of that code carries the arithmetic quantity sum
(rendered as an integer when within 1e-9 of one, else rounded to 6 decimals)
and the total-price sum (each row's own total when present, else unit price
times quantity with a missing unit price as 0, rounded to 6 decimals); in
particular the two "A1" rows with quantities 5 and 7 at unit price 3.0 and
one omitted total produce exactly one row with Quantity 12, UnitPrice 3.0,
TotalPrice 36.0. -/
theorem C1_group_quantity_total_sums :
    (∀ (stock : List (String × ℚ)) (rows : List Row) (c : String), c ≠ "" →
      ∀ o ∈ create_centralizator_data stock rows, o.codArticol = c →
        o.cantitate = qtyRender (((rows.filter (fun r => codeKey r = c)).map qOf).sum) ∧
        o.pretTotalRon = round6 (((rows.filter (fun r => codeKey r = c)).map totOr).sum)) ∧
    create_centralizator_data [] [rowA1, rowA2] = [outA1] := by
  constructor
  · intro stock rows c hc o ho hoc
    have hcod : o.codArticol ≠ "" := by rw [hoc]; exact hc
    have hche := mem_centralizator_coded stock rows o ho hcod
    rw [hoc] at hche
    rw [hche]
    exact ⟨rfl, rfl⟩
  · norm_num +decide [create_centralizator_data, groupPairs, pushEntry, codeKey, noCodeKey,
      rowA1, rowA2, outA1, orEmptyVal, pyTruthy, valueStr, pyStrip, pyIsSpace, pyLower,
      aggWithCode, aggNoCode, baseRow, qOf, puPair, tpuPair, totOr, ttotOr, wavg,
      List.filterMap, qtyRender, truncInt, round6, round_eq, to_float,
      find_stock_quantity, find_stock_code, pySort, insertLe, outLe]

/-- Witness for C1 at the concrete "A1" rows. -/
theorem C1_group_quantity_total_sums_witness :
    (("A1" : String) ≠ "" ∧ outA1 ∈ create_centralizator_data [] [rowA1, rowA2] ∧
      outA1.codArticol = "A1") ∧
    outA1.cantitate =
      qtyRender ((([rowA1, rowA2].filter (fun r => codeKey r = "A1")).map qOf).sum) ∧
    outA1.pretTotalRon =
      round6 ((([rowA1, rowA2].filter (fun r => codeKey r = "A1")).map totOr).sum) := by
  have hmem : outA1 ∈ create_centralizator_data [] [rowA1, rowA2] := by
    rw [C1_group_quantity_total_sums.2]
    exact List.mem_singleton.mpr rfl
  exact ⟨⟨by decide, hmem, rfl⟩,
    C1_group_quantity_total_sums.1 [] [rowA1, rowA2] "A1" (by decide) outA1 hmem rfl⟩

/-- Counterexample to C2 as stated: a single-row group whose quantity is 0
does not reproduce the row's own unit price 10 — the weighted average's
divisor is 0, so the aggregated UnitPrice is 0. -/
theorem C2_counterexample :
    to_float rowZeroQty.puRon = some 10 ∧ qOf rowZeroQty = 0 ∧
    create_centralizator_data [] [rowZeroQty] = [outZeroQty] ∧
    outZeroQty.puRon = 0 ∧ (0 : ℚ) ≠ 10 := by
  refine ⟨rfl, rfl, ?_, rfl, by norm_num⟩
  norm_num +decide [create_centralizator_data, groupPairs, pushEntry, codeKey, noCodeKey,
    rowZeroQty, outZeroQty, orEmptyVal, pyTruthy, valueStr, pyStrip, pyIsSpace, pyLower,
    aggWithCode, aggNoCode, baseRow, qOf, puPair, tpuPair, totOr, ttotOr, wavg,
    List.filterMap, qtyRender, truncInt, round6, round_eq, to_float,
    find_stock_quantity, find_stock_code, pySort, insertLe, outLe]

/-- The source's `wavg` over the accumulated `(price, quantity)` pairs of a
row list equals the spec's weighted-average formula over that list. -/
theorem wavg_filterMap_eq (f : Row → Option ℚ) (l : List Row) :
    wavg (l.filterMap (fun r => (f r).map (fun p => (p, qOf r)))) =
      specWeightedAvg f l := by
  rw [wavg, specWeightedAvg, pairs_snd_sum f qOf, pairs_mul_sum f qOf]

/-- C2 (amended): for every group — keyed by a non-empty code or, code-less,
by description/name — the output UnitPrice AND GreenTaxUnitPrice are the
quantity-weighted average sum(price*quantity)/sum(quantity) over the group's
rows that provide the respective parseable unit price, rounded to 6
decimals, and 0 when those quantities sum to 0 (in particular for a group
with no such row); a single-row group whose parsed quantity is NONZERO
reproduces that row's own values modulo rounding (a zero-quantity row
instead yields UnitPrice 0, see the counterexample); two rows of one code
with quantities 2 and 3 at unit prices 10 and 20 yield unit price 16.0 and
quantity 5. -/
theorem C2_weighted_average :
    (∀ (stock : List (String × ℚ)) (rows : List Row) (c : String), c ≠ "" →
      ∀ o ∈ create_centralizator_data stock rows, o.codArticol = c →
        o.puRon = specWeightedAvg (fun r => to_float r.puRon)
            (rows.filter (fun r => codeKey r = c)) ∧
        o.puTaxaRon = specWeightedAvg (fun r => to_float r.puTaxaRon)
            (rows.filter (fun r => codeKey r = c))) ∧
    (∀ (stock : List (String × ℚ)) (rows : List Row),
      ∀ p ∈ groupPairs noCodeKey id (rows.filter (fun r => codeKey r = "")),
        aggNoCode p ∈ create_centralizator_data stock rows ∧
        (aggNoCode p).puRon = specWeightedAvg (fun r => to_float r.puRon)
            ((rows.filter (fun r => codeKey r = "")).filter
              (fun r => noCodeKey r = p.1)) ∧
        (aggNoCode p).puTaxaRon = specWeightedAvg (fun r => to_float r.puTaxaRon)
            ((rows.filter (fun r => codeKey r = "")).filter
              (fun r => noCodeKey r = p.1))) ∧
    (∀ (r : Row) (p : ℚ), codeKey r ≠ "" → to_float r.puRon = some p → qOf r ≠ 0 →
      create_centralizator_data [] [r] = [aggWithCode [] (codeKey r, [r])] ∧
      (aggWithCode [] (codeKey r, [r])).puRon = round6 p ∧
      (aggWithCode [] (codeKey r, [r])).cantitate = qtyRender (qOf r) ∧
      (aggWithCode [] (codeKey r, [r])).pretTotalRon = round6 (totOr r)) ∧
    create_centralizator_data [] [rowB1, rowB2] = [outB] ∧
    outB.puRon = 16 ∧ outB.cantitate = 5 := by
  refine ⟨?_, ?_, ?_, ?_, rfl, rfl⟩
  · intro stock rows c hc o ho hoc
    have hcod : o.codArticol ≠ "" := by rw [hoc]; exact hc
    have hche := mem_centralizator_coded stock rows o ho hcod
    rw [hoc] at hche
    rw [hche]
    constructor
    · show wavg ((rows.filter (fun r => codeKey r = c)).filterMap puPair) = _
      have hpp : puPair = fun r => (to_float r.puRon).map (fun p => (p, qOf r)) := rfl
      rw [hpp, wavg_filterMap_eq (fun r => to_float r.puRon)]
    · show wavg ((rows.filter (fun r => codeKey r = c)).filterMap tpuPair) = _
      have hpp : tpuPair = fun r => (to_float r.puTaxaRon).map (fun p => (p, qOf r)) := rfl
      rw [hpp, wavg_filterMap_eq (fun r => to_float r.puTaxaRon)]
  · intro stock rows p hp
    have hgrp := mem_groupPairs_eq_filter noCodeKey id _ p hp
    rw [List.map_id] at hgrp
    refine ⟨?_, ?_, ?_⟩
    · rw [create_centralizator_data, mem_pySort, List.mem_append]
      exact .inr (List.mem_map_of_mem aggNoCode hp)
    · show wavg (p.2.filterMap puPair) = _
      rw [hgrp]
      have hpp : puPair = fun r => (to_float r.puRon).map (fun p => (p, qOf r)) := rfl
      rw [hpp, wavg_filterMap_eq (fun r => to_float r.puRon)]
    · show wavg (p.2.filterMap tpuPair) = _
      rw [hgrp]
      have hpp : tpuPair = fun r => (to_float r.puTaxaRon).map (fun p => (p, qOf r)) := rfl
      rw [hpp, wavg_filterMap_eq (fun r => to_float r.puTaxaRon)]
  · intro r p hcode hp hq
    have hsingle : create_centralizator_data [] [r] = [aggWithCode [] (codeKey r, [r])] := by
      simp [create_centralizator_data, groupPairs, pushEntry, List.filter_cons, hcode,
        pySort, insertLe]
    refine ⟨hsingle, ?_, ?_, ?_⟩
    · show wavg ([r].filterMap puPair) = round6 p
      rw [show [r].filterMap puPair = [(p, qOf r)] by simp [puPair, hp]]
      rw [wavg]
      simp only [List.map_cons, List.map_nil, List.sum_cons, List.sum_nil, add_zero]
      rw [if_pos hq, mul_div_assoc, div_self hq, mul_one]
    · show qtyRender (([r].map qOf).sum) = qtyRender (qOf r)
      simp
    · show round6 (([r].map totOr).sum) = round6 (totOr r)
      simp
  · norm_num +decide [create_centralizator_data, groupPairs, pushEntry, codeKey, noCodeKey,
      rowB1, rowB2, outB, orEmptyVal, pyTruthy, valueStr, pyStrip, pyIsSpace, pyLower,
      aggWithCode, aggNoCode, baseRow, qOf, puPair, tpuPair, totOr, ttotOr, wavg,
      List.filterMap, qtyRender, truncInt, round6, round_eq, to_float,
      find_stock_quantity, find_stock_code, pySort, insertLe, outLe]

/-- Witness for the amended C2: the single-row reproduction applied to the
row with code "B" (quantity 2, unit price 10), plus the code-less-group
conclusion applied to the description-keyed "Widget" group. -/
theorem C2_weighted_average_witness :
    (codeKey rowB1 ≠ "" ∧ to_float rowB1.puRon = some 10 ∧ qOf rowB1 ≠ 0) ∧
    create_centralizator_data [] [rowB1] = [aggWithCode [] (codeKey rowB1, [rowB1])] ∧
    (aggWithCode [] (codeKey rowB1, [rowB1])).puRon = round6 10 ∧
    (aggWithCode [] (codeKey rowB1, [rowB1])).cantitate = qtyRender (qOf rowB1) ∧
    (aggWithCode [] (codeKey rowB1, [rowB1])).pretTotalRon = round6 (totOr rowB1) ∧
    (("Widget", [rowWidgetNoCode]) ∈ groupPairs noCodeKey id
        ([rowWidgetNoCode].filter (fun r => codeKey r = "")) ∧
      aggNoCode ("Widget", [rowWidgetNoCode]) ∈
        create_centralizator_data [] [rowWidgetNoCode] ∧
      (aggNoCode ("Widget", [rowWidgetNoCode])).puTaxaRon =
        specWeightedAvg (fun r => to_float r.puTaxaRon)
          (([rowWidgetNoCode].filter (fun r => codeKey r = "")).filter
            (fun r => noCodeKey r = "Widget"))) := by
  have hq : qOf rowB1 ≠ 0 := by
    show ((2 : ℚ)) ≠ 0
    norm_num
  have hb := C2_weighted_average.2.2.1 rowB1 10 (by decide) rfl hq
  have hpmem : ("Widget", [rowWidgetNoCode]) ∈ groupPairs noCodeKey id
      ([rowWidgetNoCode].filter (fun r => codeKey r = "")) := by decide
  have hnc := C2_weighted_average.2.1 [] [rowWidgetNoCode]
    ("Widget", [rowWidgetNoCode]) hpmem
  exact ⟨⟨by decide, rfl, hq⟩, hb.1, hb.2.1, hb.2.2.1, hb.2.2.2,
    hpmem, hnc.1, hnc.2.2⟩

/-- C10: when every row of a group that provides a unit price has parsed
quantity 0 (or an unparseable one, which also counts as 0), the
weighted-average unit price is 0 rather than a division-by-zero error: the
divisor is tested before dividing, so aggregation is total. -/
theorem C10_zero_quantity_wavg :
    (∀ (stock : List (String × ℚ)) (g : String × List Row),
      (∀ r ∈ g.2, (to_float r.puRon).isSome = true → qOf r = 0) →
      (aggWithCode stock g).puRon = 0) ∧
    (∀ pairs : List (ℚ × ℚ), (pairs.map (fun pq => pq.2)).sum = 0 → wavg pairs = 0) := by
  have hw : ∀ pairs : List (ℚ × ℚ), (pairs.map (fun pq => pq.2)).sum = 0 →
      wavg pairs = 0 := by
    intro pairs h
    rw [wavg, if_neg]
    simp [h]
  refine ⟨?_, hw⟩
  intro stock g hq
  show wavg (g.2.filterMap puPair) = 0
  refine hw _ ?_
  have hpp : puPair = fun r => (to_float r.puRon).map (fun p => (p, qOf r)) := rfl
  rw [hpp, pairs_snd_sum (fun r => to_float r.puRon) qOf]
  refine List.sum_eq_zero ?_
  intro x hx
  rcases List.mem_map.mp hx with ⟨r, hr, rfl⟩
  rcases List.mem_filter.mp hr with ⟨hrg, hrs⟩
  exact hq r hrg (by simpa using hrs)

/-- Witness for C10 at the zero-quantity single-row group. -/
theorem C10_zero_quantity_wavg_witness :
    (∀ r ∈ [rowZeroQty], (to_float r.puRon).isSome = true → qOf r = 0) ∧
    (aggWithCode [] ("CX", [rowZeroQty])).puRon = 0 := by
  have hq : ∀ r ∈ [rowZeroQty], (to_float r.puRon).isSome = true → qOf r = 0 := by
    intro r hr _
    rcases List.mem_singleton.mp hr with rfl
    rfl
  exact ⟨hq, C10_zero_quantity_wavg.1 [] ("CX", [rowZeroQty]) hq⟩

/-- The bucket scan of `find_stock_quantity` is a first-match search. -/
theorem firstBucketQty_find : ∀ (key : String) (l : List (String × ℚ)),
    firstBucketQty key l =
      ((l.find? (fun e => fuzzyMatch key e.1)).map (fun e => e.2)).getD 0
  | _, [] => rfl
  | key, e :: l => by
    rw [firstBucketQty, List.find?_cons]
    cases h2 : fuzzyMatch key e.1
    · simp [h2, firstBucketQty_find key l]
    · simp [h2]

/-- `_stock_exact` holds no hit for `key` exactly when no stock entry
normalizes to `key`. -/
theorem stock_exact_find_none_iff (stock : List (String × ℚ)) (key : String) :
    stock_exact_find stock key = none ↔
      ∀ kv ∈ stock, ¬ (normalize_code kv.1 = key) := by
  simp [stock_exact_find, List.find?_eq_none, List.mem_reverse]

/-- `origFor` finds no original exactly when no stock entry normalizes to
the key. -/
theorem origFor_none_iff (stock : List (String × ℚ)) (key : String) :
    origFor stock key = none ↔ ∀ kv ∈ stock, ¬ (normalize_code kv.1 = key) := by
  simp [origFor, List.find?_eq_none]

/-- The bucket scan of `find_stock_code` is a first-match search returning
the first original whose normalization is the matched key (given that every
bucket entry does come from some stock entry). -/
theorem firstBucketCode_find (stock : List (String × ℚ)) (key : String) :
    ∀ l : List (String × ℚ),
      (∀ e ∈ l, ∃ kv ∈ stock, normalize_code kv.1 = e.1) →
      firstBucketCode stock key l =
        (match l.find? (fun e => fuzzyMatch key e.1) with
         | some e => ((stock.find? (fun kv => normalize_code kv.1 = e.1)).map
             (fun kv => kv.1)).getD ""
         | none => "")
  | [], _ => rfl
  | e :: l, hall => by
    rw [firstBucketCode, List.find?_cons]
    cases h2 : fuzzyMatch key e.1
    · simp only [h2]
      exact firstBucketCode_find stock key l
        (fun x hx => hall x (List.mem_cons_of_mem e hx))
    · simp only [h2]
      rcases hall e (List.mem_cons_self e l) with ⟨kv, hkv, hnorm⟩
      have hsome : (stock.find? (fun kv => normalize_code kv.1 = e.1)).isSome := by
        rw [List.find?_isSome]
        exact ⟨kv, hkv, by simp [hnorm]⟩
      obtain ⟨orig, horig⟩ := Option.isSome_iff_exists.mp hsome
      have ho2 : origFor stock e.1 = some orig.1 := by
        rw [origFor, horig]
        rfl
      rw [ho2, horig]
      rfl

/-- C7: with no exact normalized match, the fuzzy lookup buckets by the
normalized query's last 6 characters (whole string when shorter) — the
bucket being the normalized stock entries sharing that suffix key in
insertion order — and returns the quantity of the first bucket entry whose
normalized code ends with the query or contains it whitespace-bounded; the
companion returns the first original stock code normalizing to the matched
key; no match yields quantity 0 and an empty code. -/
theorem C7_fuzzy_stock_lookup :
    ∀ (stock : List (String × ℚ)) (cod : String), cod ≠ "" → stock ≠ [] →
      stock_exact_find stock (normalize_code cod) = none →
      (find_stock_quantity stock cod =
        ((((stock.filter (fun kv =>
              sufKey (normalize_code kv.1) = sufKey (normalize_code cod))).map
            (fun kv => (normalize_code kv.1, kv.2))).find?
              (fun e => fuzzyMatch (normalize_code cod) e.1)).map
            (fun e => e.2)).getD 0) ∧
      (∀ e : String × ℚ,
        (((stock.filter (fun kv =>
              sufKey (normalize_code kv.1) = sufKey (normalize_code cod))).map
            (fun kv => (normalize_code kv.1, kv.2))).find?
              (fun e => fuzzyMatch (normalize_code cod) e.1)) = some e →
          find_stock_code stock cod =
            ((stock.find? (fun kv => normalize_code kv.1 = e.1)).map
              (fun kv => kv.1)).getD "") ∧
      ((((stock.filter (fun kv =>
              sufKey (normalize_code kv.1) = sufKey (normalize_code cod))).map
            (fun kv => (normalize_code kv.1, kv.2))).find?
              (fun e => fuzzyMatch (normalize_code cod) e.1)) = none →
        find_stock_quantity stock cod = 0 ∧ find_stock_code stock cod = "") := by
  intro stock cod hcod hstock hex
  have hguard : ¬ ((decide (cod = "") || stock.isEmpty) = true) := by
    simp [hcod, List.isEmpty_iff, hstock]
  have hbucket : lookupGroups (stock_by_suffix stock) (sufKey (normalize_code cod)) =
      (stock.filter (fun kv =>
          sufKey (normalize_code kv.1) = sufKey (normalize_code cod))).map
        (fun kv => (normalize_code kv.1, kv.2)) := by
    rw [stock_by_suffix, lookupGroups_groupPairs]
  have hall : ∀ e ∈ (stock.filter (fun kv =>
      sufKey (normalize_code kv.1) = sufKey (normalize_code cod))).map
        (fun kv => (normalize_code kv.1, kv.2)),
      ∃ kv ∈ stock, normalize_code kv.1 = e.1 := by
    intro e he
    rcases List.mem_map.mp he with ⟨kv, hkv, rfl⟩
    exact ⟨kv, (List.mem_filter.mp hkv).1, rfl⟩
  have horig : origFor stock (normalize_code cod) = none := by
    rw [origFor_none_iff]
    exact (stock_exact_find_none_iff stock (normalize_code cod)).mp hex
  have hqty : find_stock_quantity stock cod =
      firstBucketQty (normalize_code cod)
        (lookupGroups (stock_by_suffix stock) (sufKey (normalize_code cod))) := by
    rw [find_stock_quantity, if_neg hguard, hex]
  have hcode : find_stock_code stock cod =
      firstBucketCode stock (normalize_code cod)
        (lookupGroups (stock_by_suffix stock) (sufKey (normalize_code cod))) := by
    rw [find_stock_code, if_neg hguard, horig]
  refine ⟨?_, ?_, ?_⟩
  · rw [hqty, hbucket, firstBucketQty_find]
  · intro e hfind
    rw [hcode, hbucket, firstBucketCode_find stock (normalize_code cod) _ hall, hfind]
  · intro hnone
    constructor
    · rw [hqty, hbucket, firstBucketQty_find, hnone]
      rfl
    · rw [hcode, hbucket, firstBucketCode_find stock (normalize_code cod) _ hall, hnone]

/-- Witness for C7: the stored code "SUP-000123" queried as "000123". -/
theorem C7_fuzzy_stock_lookup_witness :
    (("000123" : String) ≠ "" ∧ stockSup ≠ [] ∧
      stock_exact_find stockSup (normalize_code "000123") = none) ∧
    find_stock_quantity stockSup "000123" = 17 ∧
    find_stock_code stockSup "000123" = "SUP-000123" := by
  have h := C7_fuzzy_stock_lookup stockSup "000123" (by decide)
    (by simp [stockSup]) (by rfl)
  refine ⟨⟨by decide, by simp [stockSup], by rfl⟩, ?_, ?_⟩
  · rw [h.1]
    rfl
  · rw [h.2.1 ("SUP-000123", 17) (by rfl)]
    rfl

/-- C8: coded groups hold exactly rows with their (non-empty) trimmed code;
code-less groups hold only code-less rows keyed by trimmed description, then
trimmed name, then the fixed sentinel; a code-less row never sits in a coded
group; and the two passes are aggregated independently and concatenated
(coded output first) before sorting. -/
theorem C8_grouping_isolation :
    (∀ rows : List Row,
      ∀ p ∈ groupPairs codeKey id (rows.filter (fun r => codeKey r ≠ "")),
        p.1 ≠ "" ∧ ∀ r ∈ p.2, codeKey r = p.1) ∧
    (∀ rows : List Row,
      ∀ p ∈ groupPairs noCodeKey id (rows.filter (fun r => codeKey r = "")),
        ∀ r ∈ p.2, codeKey r = "" ∧ noCodeKey r = p.1) ∧
    (∀ rows : List Row, ∀ r ∈ rows, codeKey r = "" →
      ∀ p ∈ groupPairs codeKey id (rows.filter (fun r => codeKey r ≠ "")),
        r ∉ p.2) ∧
    (∀ (stock : List (String × ℚ)) (rows : List Row),
      create_centralizator_data stock rows =
        pySort outLe
          (((groupPairs codeKey id (rows.filter (fun r => codeKey r ≠ ""))).map
              (aggWithCode stock)) ++
            ((groupPairs noCodeKey id (rows.filter (fun r => codeKey r = ""))).map
              aggNoCode))) ∧
    create_centralizator_data [] [rowWidgetCoded, rowWidgetNoCode] =
      [outWidgetNoCode, outWidgetCoded] := by
  have hmem1 : ∀ rows : List Row,
      ∀ p ∈ groupPairs codeKey id (rows.filter (fun r => codeKey r ≠ "")),
        ∀ r ∈ p.2, codeKey r = p.1 ∧ codeKey r ≠ "" := by
    intro rows p hp r hr
    have hflt := mem_groupPairs_eq_filter codeKey id _ p hp
    rw [hflt, List.map_id] at hr
    rcases List.mem_filter.mp hr with ⟨hr2, hkey⟩
    rcases List.mem_filter.mp hr2 with ⟨_, hne⟩
    exact ⟨by simpa using hkey, by simpa using hne⟩
  refine ⟨?_, ?_, ?_, fun stock rows => rfl, ?_⟩
  · intro rows p hp
    constructor
    · rcases mem_groupPairs_key codeKey id _ p hp with ⟨a, ha, hk⟩
      rcases List.mem_filter.mp ha with ⟨_, hne⟩
      rw [← hk]
      simpa using hne
    · intro r hr
      exact (hmem1 rows p hp r hr).1
  · intro rows p hp r hr
    have hflt := mem_groupPairs_eq_filter noCodeKey id _ p hp
    rw [hflt, List.map_id] at hr
    rcases List.mem_filter.mp hr with ⟨hr2, hkey⟩
    rcases List.mem_filter.mp hr2 with ⟨_, he⟩
    exact ⟨by simpa using he, by simpa using hkey⟩
  · intro rows r _ hre p hp hmem
    exact (hmem1 rows p hp r hmem).2 hre
  · norm_num +decide [create_centralizator_data, groupPairs, pushEntry, codeKey, noCodeKey,
      rowWidgetCoded, rowWidgetNoCode, outWidgetCoded, outWidgetNoCode,
      orEmptyVal, pyTruthy, valueStr, pyStrip, pyIsSpace, pyLower,
      aggWithCode, aggNoCode, baseRow, qOf, puPair, tpuPair, totOr, ttotOr, wavg,
      List.filterMap, qtyRender, truncInt, round6, round_eq, to_float,
      find_stock_quantity, find_stock_code, pySort, insertLe, outLe, valueLe,
      strLtB, strLtL]

/-- Witness for C8: the code-less "Widget" row is in no coded group of the
two-row example, even though the coded group's rows describe "Widget" too. -/
theorem C8_grouping_isolation_witness :
    (rowWidgetNoCode ∈ [rowWidgetCoded, rowWidgetNoCode] ∧
      codeKey rowWidgetNoCode = "" ∧
      ("WID-1", [rowWidgetCoded]) ∈ groupPairs codeKey id
        ([rowWidgetCoded, rowWidgetNoCode].filter (fun r => codeKey r ≠ ""))) ∧
    rowWidgetNoCode ∉ ("WID-1", [rowWidgetCoded]).2 := by
  refine ⟨⟨by decide, by decide, by decide⟩, ?_⟩
  exact C8_grouping_isolation.2.2.1 [rowWidgetCoded, rowWidgetNoCode]
    rowWidgetNoCode (by decide) (by decide)
    ("WID-1", [rowWidgetCoded]) (by decide)

/-- C9: the Centralizator output is sorted ascending by the pair
(ArticleCode, Description) — code-point string order on codes, and for text
descriptions exactly Python's string order — and a row with an empty
article code never follows one with a non-empty code. -/
theorem C9_output_sorted :
    (∀ (stock : List (String × ℚ)) (rows : List Row),
      (create_centralizator_data stock rows).Pairwise (fun a b =>
        strLtB a.codArticol b.codArticol = true ∨
          (a.codArticol = b.codArticol ∧ valueLe a.descriere b.descriere = true))) ∧
    (∀ s t : String, valueLe (.str s) (.str t) = true ↔ (strLtB s t = true ∨ s = t)) ∧
    (∀ (stock : List (String × ℚ)) (rows : List Row) (i j : Nat), i < j →
      ∀ a b : OutRow,
        (create_centralizator_data stock rows).get? i = some a →
        (create_centralizator_data stock rows).get? j = some b →
        b.codArticol = "" → a.codArticol = "") := by
  have hpair : ∀ (stock : List (String × ℚ)) (rows : List Row),
      (create_centralizator_data stock rows).Pairwise (fun a b =>
        strLtB a.codArticol b.codArticol = true ∨
          (a.codArticol = b.codArticol ∧ valueLe a.descriere b.descriere = true)) := by
    intro stock rows
    have hs := pairwise_pySort outLe outLe_trans outLe_total
      (((groupPairs codeKey id (rows.filter (fun r => codeKey r ≠ ""))).map
          (aggWithCode stock)) ++
        ((groupPairs noCodeKey id (rows.filter (fun r => codeKey r = ""))).map
          aggNoCode))
    have heq : create_centralizator_data stock rows =
        pySort outLe
          (((groupPairs codeKey id (rows.filter (fun r => codeKey r ≠ ""))).map
              (aggWithCode stock)) ++
            ((groupPairs noCodeKey id (rows.filter (fun r => codeKey r = ""))).map
              aggNoCode)) := rfl
    rw [← heq] at hs
    refine hs.imp ?_
    intro a b h
    simpa [outLe, Bool.or_eq_true, Bool.and_eq_true, decide_eq_true_eq] using h
  refine ⟨hpair, ?_, ?_⟩
  · intro s t
    simp [valueLe, Bool.or_eq_true, decide_eq_true_eq]
  · intro stock rows i j hij a b ha hb hbcod
    rcases List.get?_eq_some.mp ha with ⟨hi, hga⟩
    rcases List.get?_eq_some.mp hb with ⟨hj, hgb⟩
    have hrel := List.pairwise_iff_get.mp (hpair stock rows) ⟨i, hi⟩ ⟨j, hj⟩
      (by simpa using hij)
    rw [hga, hgb] at hrel
    rcases hrel with hlt | ⟨heq2, _⟩
    · rw [hbcod] at hlt
      rw [strLtB_empty_right] at hlt
      cases hlt
    · rw [heq2, hbcod]

/-- Witness for C9 at the two code-less example rows. -/
theorem C9_output_sorted_witness :
    ((0 : Nat) < 1 ∧
      (create_centralizator_data [] [rowPlainA, rowPlainB]).get? 0 = some outPlainA ∧
      (create_centralizator_data [] [rowPlainA, rowPlainB]).get? 1 = some outPlainB ∧
      outPlainB.codArticol = "") ∧
    outPlainA.codArticol = "" := by
  have hout : create_centralizator_data [] [rowPlainA, rowPlainB] =
      [outPlainA, outPlainB] := by
    norm_num +decide [create_centralizator_data, groupPairs, pushEntry, codeKey, noCodeKey,
      rowPlainA, rowPlainB, outPlainA, outPlainB,
      orEmptyVal, pyTruthy, valueStr, pyStrip, pyIsSpace, pyLower,
      aggWithCode, aggNoCode, baseRow, qOf, puPair, tpuPair, totOr, ttotOr, wavg,
      List.filterMap, qtyRender, truncInt, round6, round_eq, to_float,
      find_stock_quantity, find_stock_code, pySort, insertLe, outLe, valueLe,
      strLtB, strLtL]
  have h0 : (create_centralizator_data [] [rowPlainA, rowPlainB]).get? 0 = some outPlainA := by
    rw [hout]
    rfl
  have h1 : (create_centralizator_data [] [rowPlainA, rowPlainB]).get? 1 = some outPlainB := by
    rw [hout]
    rfl
  exact ⟨⟨Nat.zero_lt_one, h0, h1, rfl⟩,
    C9_output_sorted.2.2 [] [rowPlainA, rowPlainB] 0 1 Nat.zero_lt_one
      outPlainA outPlainB h0 h1 rfl⟩

/-- C5: the header scan visits only rows within the first 25 and columns
within the first 15 of the sheet (concretely rows `1..min 24 max_row` and
columns `1..min 14 max_column`, the ranges of the source's `range` calls);
the header row is exactly the first scanned row on which at least 3 of the
indicator keywords occur as substrings of some truthy cell's trimmed
lower-cased text; and a sheet with no qualifying scanned row contributes
zero extracted rows (no error, extraction being total); the spec's
4-indicator example row is selected and a keyword-free sheet is skipped. -/
theorem C5_header_row_detection :
    (∀ s : Sheet, ∀ r ∈ scannedRows s, 1 ≤ r ∧ r ≤ 25) ∧
    (∀ s : Sheet, ∀ c ∈ scannedCols s, 1 ≤ c ∧ c ≤ 15) ∧
    (∀ (s : Sheet) (r : Nat), header_row s = some r ↔
      (r ∈ scannedRows s ∧ 3 ≤ rowIndicatorMatches s r ∧
        ∀ k ∈ scannedRows s, k < r → rowIndicatorMatches s k < 3)) ∧
    (∀ s : Sheet, (∀ r ∈ scannedRows s, rowIndicatorMatches s r < 3) →
      extract_data_from_sheet s = []) ∧
    header_row sheetHdr = some 1 ∧ rowIndicatorMatches sheetHdr 1 = 5 ∧
    header_row sheetNoHdr = none ∧ extract_data_from_sheet sheetNoHdr = [] := by
  refine ⟨?_, ?_, ?_, ?_, by decide, by decide, by decide, by decide⟩
  · intro s r hr
    rcases List.mem_range'_1.mp hr with ⟨h1, h2⟩
    have h3 : min 24 (maxRow s) ≤ 24 := Nat.min_le_left 24 (maxRow s)
    exact ⟨h1, by omega⟩
  · intro s c hc
    rcases List.mem_range'_1.mp hc with ⟨h1, h2⟩
    have h3 : min 14 (maxCol s) ≤ 14 := Nat.min_le_left 14 (maxCol s)
    exact ⟨h1, by omega⟩
  · intro s r
    rw [header_row, scannedRows, find?_range'_iff]
    constructor
    · rintro ⟨h1, h2, h3, h4⟩
      refine ⟨List.mem_range'_1.mpr ⟨h1, by omega⟩, by simpa using h3, ?_⟩
      intro k hk hkr
      have h5 := h4 k (List.mem_range'_1.mp hk).1 hkr
      have h6 : ¬ 3 ≤ rowIndicatorMatches s k := by simpa using h5
      omega
    · rintro ⟨hmem, h3, h4⟩
      rcases List.mem_range'_1.mp hmem with ⟨h1, h2⟩
      refine ⟨h1, by omega, by simpa using h3, ?_⟩
      intro k hk1 hkr
      have h5 : rowIndicatorMatches s k < 3 :=
        h4 k (List.mem_range'_1.mpr ⟨hk1, by omega⟩) hkr
      have h6 : ¬ 3 ≤ rowIndicatorMatches s k := by omega
      simpa using h6
  · intro s hall
    have hnone : header_row s = none := by
      rw [header_row, List.find?_eq_none]
      intro x hx
      have h5 : rowIndicatorMatches s x < 3 := hall x hx
      have h6 : ¬ 3 ≤ rowIndicatorMatches s x := by omega
      simpa using h6
    simp [extract_data_from_sheet, hnone]

/-- Witness for C5: the detection equivalence at the example sheets. -/
theorem C5_header_row_detection_witness :
    (1 ∈ scannedRows sheetHdr ∧ 3 ≤ rowIndicatorMatches sheetHdr 1 ∧
      ∀ k ∈ scannedRows sheetHdr, k < 1 → rowIndicatorMatches sheetHdr k < 3) ∧
    ((∀ r ∈ scannedRows sheetNoHdr, rowIndicatorMatches sheetNoHdr r < 3) ∧
      extract_data_from_sheet sheetNoHdr = []) :=
  ⟨(C5_header_row_detection.2.2.1 sheetHdr 1).mp (by decide),
    ⟨by decide, C5_header_row_detection.2.2.2.1 sheetNoHdr (by decide)⟩⟩
